import Mathlib

/-!
# JetScapeWriterFinalStateStream

A shallow embedding of `src/framework/JetScapeWriterFinalStateStream.cc`, the
final-state particle writer of JETSCAPE, and theorems about the text it writes.

The writer is a class template over an output stream `T` (`ofstream` or
`ogzstream`).  Its member functions become functions on an explicit writer
state; what the base class and the XML singleton return during one call is
passed in as a `Framework` value.  The stream and the `double` formatting of
the C++ library are modelled below, before the writer itself.
-/

namespace Jetscape

/-! ## `double` values and their text -/

/-- A C++ `double`.  `finite neg m e` is the value `(-1)^neg * m * 2^e`; every
finite binary64 value has this form (with `m < 2^53`), and so do both zeros.
The theorems below quantify over all such values, a superset of binary64. -/
inductive Double where
  | finite (neg : Bool) (m : Nat) (e : Int)
  | inf (neg : Bool)
  | nan (neg : Bool)
deriving DecidableEq

namespace Double

/-- The values that a binary64 `double` can really hold. -/
def isBinary64 : Double → Bool
  | finite _ m e => decide (m < 2 ^ 53) && decide (-1074 ≤ e) && decide (e ≤ 971)
  | inf _ => true
  | nan _ => true

/-- Conversion of an `int` to `double` (exact for every 32-bit `int`). -/
def ofInt (i : Int) : Double := finite (decide (i < 0)) i.natAbs 0

/-- The signed numerator of `(-1)^neg * m * 2^e` over the common scale `2^k`, `k ≤ e`. -/
def scaled (neg : Bool) (m : Nat) (e k : Int) : Int :=
  (if neg then -(m : Int) else (m : Int)) * 2 ^ (e - k).toNat

/-- The C++ `a < b` on doubles: false as soon as one side is a NaN. -/
def lt : Double → Double → Bool
  | nan _, _ => false
  | _, nan _ => false
  | inf a, inf b => a && !b
  | inf a, finite _ _ _ => a
  | finite _ _ _, inf b => !b
  | finite n₁ m₁ e₁, finite n₂ m₂ e₂ =>
      decide (scaled n₁ m₁ e₁ (min e₁ e₂) < scaled n₂ m₂ e₂ (min e₁ e₂))

/-- The C++ `a > b` on doubles. -/
def gt (a b : Double) : Bool := lt b a

end Double

/-- Round the rational `a / b` to the nearest integer, ties to even (the default
rounding of `printf`, applied to the exact value). -/
def roundHalfEven (a b : Nat) : Nat :=
  let q := a / b
  let r := a % b
  if 2 * r < b then q else if b < 2 * r then q + 1 else if q % 2 = 0 then q else q + 1

/-- Left-pad `s` with `'0'` up to width `w`. -/
def zeroPad (w : Nat) (s : String) : String :=
  String.mk (List.replicate (w - s.length) '0') ++ s

/-- `printf("%.<p>f")` of the non-negative rational `num / den`. -/
def fixedMag (p num den : Nat) : String :=
  let scaledUp := roundHalfEven (num * 10 ^ p) den
  let ip := toString (scaledUp / 10 ^ p)
  if p = 0 then ip else ip ++ "." ++ zeroPad p (toString (scaledUp % 10 ^ p))

/-- Search upward from `k` for the least exponent with `den ≤ num * 10^k`. -/
def scaleSearch (num den : Nat) : Nat → Nat → Nat
  | 0, k => k
  | fuel + 1, k => if den ≤ num * 10 ^ k then k else scaleSearch num den fuel (k + 1)

/-- The decimal exponent `⌊log₁₀ (num / den)⌋` of a positive rational. -/
def decExponent (num den : Nat) : Int :=
  if den ≤ num then ((toString (num / den)).length : Int) - 1
  else -((scaleSearch num den den 1 : Nat) : Int)

/-- The integer nearest to `num / den * 10^(P - 1 - x)`: the first `P`
significant digits when `x` is the decimal exponent. -/
def sigDigits (P : Nat) (x : Int) (num den : Nat) : Nat :=
  let k : Int := (P : Int) - 1 - x
  if 0 ≤ k then roundHalfEven (num * 10 ^ k.toNat) den
  else roundHalfEven num (den * 10 ^ (-k).toNat)

/-- Remove the trailing zeros of a fraction, and the decimal point when nothing
is left behind it (what `%g` does without the `#` flag). -/
def stripZeros (s : String) : String :=
  if '.' ∈ s.data then
    String.mk
      (match s.data.reverse.dropWhile (fun c => c == '0') with
        | '.' :: t => t
        | r => r).reverse
  else s

/-- The exponent part of `%e`: a sign and at least two digits. -/
def expText (x : Int) : String :=
  (if x < 0 then "-" else "+") ++ zeroPad 2 (toString x.natAbs)

/-- `printf("%.<prec>g")` of the non-negative rational `num / den`. -/
def generalMag (prec num den : Nat) : String :=
  let P := if prec = 0 then 1 else prec
  if num = 0 then "0" else
  let x₀ := decExponent num den
  let d₀ := sigDigits P x₀ num den
  let x := if d₀ = 10 ^ P then x₀ + 1 else x₀
  if x < -4 ∨ (P : Int) ≤ x then
    let ds := (toString (if d₀ = 10 ^ P then 10 ^ (P - 1) else d₀)).data
    stripZeros (String.mk (ds.take 1 ++ (if P = 1 then [] else '.' :: ds.drop 1)))
      ++ "e" ++ expText x
  else
    stripZeros (fixedMag ((P : Int) - 1 - x).toNat num den)

/-- The sign that `printf` puts in front of a negative value. -/
def signText (neg : Bool) : String := if neg then "-" else ""

/-- What `ostream << double` writes when the stream has precision `prec` and the
default float field: the `%g` conversion. -/
def formatG (prec : Nat) : Double → String
  | .finite neg m e => signText neg ++ generalMag prec (m * 2 ^ e.toNat) (2 ^ (-e).toNat)
  | .inf neg => signText neg ++ "inf"
  | .nan neg => signText neg ++ "nan"

/-- The text of `std::to_string(double)`: the `%f` conversion, six decimals. -/
def to_string : Double → String
  | .finite neg m e => signText neg ++ fixedMag 6 (m * 2 ^ e.toNat) (2 ^ (-e).toNat)
  | .inf neg => signText neg ++ "inf"
  | .nan neg => signText neg ++ "nan"

/-! ## The output stream -/

/-- The state of the output stream `T output_file`, after `std::ofstream`.
`text` is what has been written to the file since it was opened, `good` is
`false` once an error flag is set, `releases` counts the times an open file was
released.  Failures of the operating system (a path that cannot be opened, a
full disk) are outside the model: `open` on a closed stream succeeds. -/
structure OStream where
  isOpen : Bool
  good : Bool
  precision : Nat
  text : String
  releases : Nat
deriving DecidableEq

namespace OStream

/-- A default-constructed stream (`output_file{}`): closed, no error, precision 6. -/
def fresh : OStream :=
  { isOpen := false, good := true, precision := 6, text := "", releases := 0 }

/-- The call `open(path)`: truncates the file; fails when the stream is already open. -/
def open_ (o : OStream) : OStream :=
  if o.isOpen then { o with good := false }
  else { o with isOpen := true, good := true, text := "" }

/-- Insertion of already formatted characters.  A stream in error ignores them;
a closed stream drops them and (unless there are none) sets an error flag. -/
def write (o : OStream) (s : String) : OStream :=
  if o.good then
    if o.isOpen then { o with text := o.text ++ s }
    else if s = "" then o else { o with good := false }
  else o

/-- The insertion `<< "..."` of a string. -/
def str (o : OStream) (s : String) : OStream := o.write s

/-- The insertion `<< i` of an `int`. -/
def int (o : OStream) (i : Int) : OStream := o.write (toString i)

/-- The insertion `<< n` of an unsigned integer. -/
def nat (o : OStream) (n : Nat) : OStream := o.write (toString n)

/-- The insertion `<< x` of a `double`, at the stream's current precision. -/
def double (o : OStream) (x : Double) : OStream := o.write (formatG o.precision x)

/-- The insertion `<< std::setprecision(p)`. -/
def setprecision (o : OStream) (p : Nat) : OStream := { o with precision := p }

/-- The call `close()`: releases an open file; on a closed stream only sets an error flag. -/
def close (o : OStream) : OStream :=
  if o.isOpen then { o with isOpen := false, releases := o.releases + 1 }
  else { o with good := false }

/-- The destructor of the stream: an open file is released. -/
def destroy (o : OStream) : OStream :=
  if o.isOpen then { o with isOpen := false, releases := o.releases + 1 } else o

end OStream

/-! ## The data the writer reads -/

/-- A particle record, `JetScapeParticleBase`, through the getters the writer calls. -/
structure Particle where
  pid : Int
  pstat : Int
  e : Double
  px : Double
  py : Double
  pz : Double
deriving DecidableEq

/-- A parton shower: its partons in the shower's order, each with the mark
`true` when it branches further. -/
structure PartonShower where
  partons : List (Particle × Bool)

/-- Modelled from the spec: `PartonShower::GetFinalPartons`, whose source is not
part of this unit.  It yields the final-state partons, "those marked as not
further branching", "in the shower's internal order". -/
def PartonShower.GetFinalPartons (ps : PartonShower) : List Particle :=
  (ps.partons.filter (fun p => !p.2)).map Prod.fst

/-- The event header, `JetScapeEventHeader`, through the getters the writer calls. -/
structure JetScapeEventHeader where
  EventWeight : Double
  EventPlaneAngle : Double
  PtHat : Double
  VertexX : Double
  VertexY : Double
  VertexZ : Double
  SigmaGen : Double
  SigmaErr : Double

/-- What the framework answers during one call of a member function: the current
header, the current event number and the two XML elements the writer reads.
`currentEvent` is an `int`; `currentEvent + 1` is taken in the integers, since
signed overflow is undefined in C++. -/
structure Framework where
  header : JetScapeEventHeader
  currentEvent : Int
  write_pthat : Int
  final_state_writer_header_version : Option Int

/-- `GetXMLElementInt({"final_state_writer_header_version"}, false)`: "If it fails
to retrieve the value, it will return 0". -/
def GetXMLElementInt (fw : Framework) : Int :=
  fw.final_state_writer_header_version.getD 0

/-- The state of the base class `JetScapeWriter` that the writer reads. -/
structure JetScapeWriter where
  active : Bool
  name : String
  file_name_out : String

/-- The state of a `JetScapeWriterFinalStateStream<T>`.  `headerVersion` is an
`unsigned int`, `log` collects the `JSINFO` messages. -/
structure JetScapeWriterFinalStateStream where
  base : JetScapeWriter
  output_file : OStream
  particles : List Particle
  headerVersion : Nat
  log : List String

namespace JetScapeWriterFinalStateStream

/-- The getter `GetActive()`. -/
def GetActive (w : JetScapeWriterFinalStateStream) : Bool := w.base.active

/-- The getter `GetName()`. -/
def GetName (w : JetScapeWriterFinalStateStream) : String := w.base.name

/-- The getter `GetOutputFileName()`. -/
def GetOutputFileName (w : JetScapeWriterFinalStateStream) : String := w.base.file_name_out

/-- The setter `SetOutputFileName`. -/
def SetOutputFileName (w : JetScapeWriterFinalStateStream) (m_file_name_out : String) :
    JetScapeWriterFinalStateStream :=
  { w with base := { w.base with file_name_out := m_file_name_out } }

/-- Modelled from the spec: the active flag is "an enable flag owned by the
surrounding pipeline, not by this component".  This is the setter `SetActive` of
the base class, whose source is not part of this unit; it changes
the flag that `GetActive()` returns and nothing else. -/
def SetActive (w : JetScapeWriterFinalStateStream) (m_active_exec : Bool) :
    JetScapeWriterFinalStateStream :=
  { w with base := { w.base with active := m_active_exec } }

/-- The default constructor: `output_file{}, headerVersion{2}`. -/
def construct (base : JetScapeWriter) : JetScapeWriterFinalStateStream :=
  { base := base, output_file := OStream.fresh, particles := [], headerVersion := 2, log := [] }

/-- The constructor taking the output file name.  It has no member initialiser
list, so `headerVersion` keeps the indeterminate value `garbage` of its storage. -/
def constructWithFileName (base : JetScapeWriter) (garbage : Nat) (m_file_name_out : String) :
    JetScapeWriterFinalStateStream :=
  SetOutputFileName
    { base := base, output_file := OStream.fresh, particles := [],
      headerVersion := garbage % 2 ^ 32, log := [] }
    m_file_name_out

/-- The loop over `particles` in `WriteEvent`; `ipart` is an `unsigned int`. -/
def writeParticles (out : OStream) (ipart : Nat) : List Particle → OStream
  | [] => out
  | particle :: rest =>
      writeParticles
        (out |>.nat ipart
          |>.str " " |>.int particle.pid
          |>.str " " |>.int particle.pstat
          |>.str " " |>.double particle.e
          |>.str " " |>.double particle.px
          |>.str " " |>.double particle.py
          |>.str " " |>.double particle.pz
          |>.str "\n")
        ((ipart + 1) % 2 ^ 32) rest

/-- The member function `WriteEvent`. -/
def WriteEvent (fw : Framework) (w : JetScapeWriterFinalStateStream) :
    JetScapeWriterFinalStateStream :=
  let pt_hat_text :=
    if fw.write_pthat ≠ 0 then "" ++ "\tpt_hat\t" ++ to_string fw.header.PtHat else ""
  let out := w.output_file
    |>.str "#"
    |>.str "\t" |>.str "Event\t" |>.int (fw.currentEvent + 1)
    |>.str "\t" |>.str "weight\t" |>.setprecision 15 |>.double fw.header.EventWeight
    |>.setprecision 6
    |>.str "\t" |>.str "EPangle\t"
    |>.double (if fw.header.EventPlaneAngle.gt (Double.ofInt (-999))
        then fw.header.EventPlaneAngle else Double.ofInt 0)
    |>.str "\t" |>.str "N_" |>.str (GetName w) |>.str "\t" |>.nat w.particles.length
  let out :=
    if w.headerVersion = 3 then
      out
        |>.str "\t" |>.str "vertex_x\t" |>.double fw.header.VertexX
        |>.str "\t" |>.str "vertex_y\t" |>.double fw.header.VertexY
        |>.str "\t" |>.str "vertex_z\t" |>.double fw.header.VertexZ
    else out
  let out := out |>.str pt_hat_text |>.str "\n"
  let out := writeParticles out 0 w.particles
  { w with output_file := out, particles := [] }

/-- The `name[0] = toupper(name[0])` of `Init`. -/
def capitalize (name : String) : String :=
  match name.data with
  | [] => name
  | c :: cs => String.mk (c.toUpper :: cs)

/-- The member function `Init`. -/
def Init (fw : Framework) (w : JetScapeWriterFinalStateStream) :
    JetScapeWriterFinalStateStream :=
  if GetActive w then
    let result := GetXMLElementInt fw
    let w := if result ≠ 0 then { w with headerVersion := (result % 2 ^ 32).toNat } else w
    let name := capitalize (GetName w)
    let w := { w with log := w.log ++
      ["JetScape Final State " ++ name ++ " Stream Writer v" ++ toString w.headerVersion
        ++ " initialized with output file = " ++ GetOutputFileName w] }
    let out := w.output_file.open_
      |>.str "#"
      |>.str "\t" |>.str "JETSCAPE_FINAL_STATE\t" |>.str "v3"
      |>.str "\t" |>.str "|"
      |>.str "\t" |>.str "N"
      |>.str "\t" |>.str "pid"
      |>.str "\t" |>.str "status"
      |>.str "\t" |>.str "E"
      |>.str "\t" |>.str "Px"
      |>.str "\t" |>.str "Py"
      |>.str "\t" |>.str "Pz"
      |>.str "\n"
    { w with output_file := out }
  else w

/-- The member function `Exec`: its body is commented out. -/
def Exec (w : JetScapeWriterFinalStateStream) : JetScapeWriterFinalStateStream := w

/-- The member function `Write(weak_ptr<PartonShower>)`; `ps` is what `lock()` yields. -/
def WriteShower (ps : Option PartonShower) (w : JetScapeWriterFinalStateStream) :
    JetScapeWriterFinalStateStream :=
  match ps with
  | none => w
  | some pShower =>
      let finalStatePartons := pShower.GetFinalPartons
      finalStatePartons.foldl (fun w parton => { w with particles := w.particles ++ [parton] }) w

/-- The member function `Write(weak_ptr<Hadron>)`; `h` is what `lock()` yields. -/
def WriteHadron (h : Option Particle) (w : JetScapeWriterFinalStateStream) :
    JetScapeWriterFinalStateStream :=
  match h with
  | some hh => { w with particles := w.particles ++ [hh] }
  | none => w

/-- The member function `Close`. -/
def Close (fw : Framework) (w : JetScapeWriterFinalStateStream) :
    JetScapeWriterFinalStateStream :=
  let out := w.output_file
    |>.str "#" |>.str "\t"
    |>.str "sigmaGen\t" |>.double fw.header.SigmaGen |>.str "\t"
    |>.str "sigmaErr\t" |>.double fw.header.SigmaErr |>.str "\n"
  { w with output_file := out.close }

/-- The destructor: its body, then the destruction of the member `output_file`. -/
def destructor (fw : Framework) (w : JetScapeWriterFinalStateStream) :
    JetScapeWriterFinalStateStream :=
  let w := if GetActive w then Close fw w else w
  { w with output_file := w.output_file.destroy }

end JetScapeWriterFinalStateStream

/-! ## The lines the writer is expected to write -/

/-- The text of a sequence of lines, one after the other. -/
def catLines : List String → String
  | [] => ""
  | l :: rest => l ++ catLines rest

/-- The text of a particle line: index, pid, status, E, Px, Py, Pz, separated by
single spaces; `prec` is the precision the doubles are formatted with. -/
def particleTextAt (prec i : Nat) (p : Particle) : String :=
  " ".intercalate
    [toString i, toString p.pid, toString p.pstat,
      formatG prec p.e, formatG prec p.px, formatG prec p.py, formatG prec p.pz]

/-- A particle line: its text, terminated by a newline. -/
def particleLineAt (prec i : Nat) (p : Particle) : String :=
  particleTextAt prec i p ++ "\n"

/-- The EPangle field of an event header: the angle when it is greater than
`-999`, and `0` otherwise. -/
def angleField (a : Double) : String :=
  if a.gt (Double.ofInt (-999)) then formatG 6 a else "0"

/-- The vertex fields of an event header: present for header version 3 only. -/
def vertexFields (version : Nat) (h : JetScapeEventHeader) : List String :=
  if version = 3 then
    ["vertex_x", formatG 6 h.VertexX, "vertex_y", formatG 6 h.VertexY,
      "vertex_z", formatG 6 h.VertexZ]
  else []

/-- The pt_hat field of an event header: present when `write_pthat` is non-zero. -/
def ptHatFields (fw : Framework) : List String :=
  if fw.write_pthat ≠ 0 then ["pt_hat", to_string fw.header.PtHat] else []

/-- The fields of an event-header line, in the order of the spec. -/
def eventHeaderFields (fw : Framework) (label : String) (version count : Nat) : List String :=
  ["#", "Event", toString (fw.currentEvent + 1), "weight", formatG 15 fw.header.EventWeight,
    "EPangle", angleField fw.header.EventPlaneAngle, "N_" ++ label, toString count]
    ++ vertexFields version fw.header ++ ptHatFields fw

/-- The text of an event-header line: its fields joined by tabs. -/
def eventHeaderText (fw : Framework) (label : String) (version count : Nat) : String :=
  "\t".intercalate (eventHeaderFields fw label version count)

/-- An event-header line: its text, terminated by a newline. -/
def eventHeaderLine (fw : Framework) (label : String) (version count : Nat) : String :=
  eventHeaderText fw label version count ++ "\n"

/-- The texts of the particle lines of a buffer: record `i` carries the index
`i mod 2^32`, the value of the `unsigned int` counter. -/
def particleTexts (ps : List Particle) : List String :=
  ps.enum.map fun ip => particleTextAt 6 (ip.1 % 2 ^ 32) ip.2

/-- The particle lines of a buffer, each terminated by a newline. -/
def particleLines (ps : List Particle) : List String :=
  (particleTexts ps).map fun l => l ++ "\n"

/-- The particle lines as the claim words them: record `i` carries the index `i`. -/
def specParticleLines (ps : List Particle) : List String :=
  ps.enum.map fun ip => particleLineAt 6 ip.1 ip.2

namespace OStream

/-- An open stream without error flag: what is inserted reaches the file. -/
def Ready (o : OStream) : Prop := o.isOpen = true ∧ o.good = true

end OStream

/-! ## Calls of the pipeline -/

/-- One call made by the surrounding pipeline between `Init` and `Close`. -/
inductive Call where
  | WriteShower (ps : Option PartonShower)
  | WriteHadron (h : Option Particle)
  | WriteEvent (fw : Framework)
  | Exec

namespace Call

/-- The effect of one call on the writer. -/
def step (w : JetScapeWriterFinalStateStream) : Call → JetScapeWriterFinalStateStream
  | WriteShower ps => w.WriteShower ps
  | WriteHadron h => w.WriteHadron h
  | WriteEvent fw => w.WriteEvent fw
  | Exec => w.Exec

/-- The calls of the two `Write` overloads. -/
def isWrite : Call → Bool
  | WriteShower _ => true
  | WriteHadron _ => true
  | _ => false

/-- The records that a `Write` call hands over: the final-state partons of a
live shower, the hadron of a live hadron reference, nothing otherwise. -/
def records : Call → List Particle
  | WriteShower (some pShower) => pShower.GetFinalPartons
  | WriteHadron (some hh) => [hh]
  | _ => []

end Call

/-- A sequence of calls, made in order. -/
def run (calls : List Call) (w : JetScapeWriterFinalStateStream) :
    JetScapeWriterFinalStateStream :=
  calls.foldl Call.step w

/-! ## Characters of formatted numbers -/

/-- The characters that the formatting of a number can produce. -/
def numericChar (c : Char) : Bool :=
  c.isDigit || c == '.' || c == '-' || c == '+' || c == 'e' || c == 'i' || c == 'n'
    || c == 'f' || c == 'a'

/-- A text made of the characters of formatted numbers only. -/
def Numeric (s : String) : Prop := ∀ c ∈ s.data, numericChar c = true

/-! ## Lines of the output -/

/-- The lines of a text, without their newlines; `cur` holds, reversed, the
characters of the line being read.  An unterminated rest counts as a last line. -/
def linesFrom (cur : List Char) : List Char → List String
  | [] => if cur.isEmpty then [] else [String.mk cur.reverse]
  | c :: cs =>
      if c = '\n' then String.mk cur.reverse :: linesFrom [] cs else linesFrom (c :: cur) cs

/-- The lines of a text. -/
def textLines (s : String) : List String := linesFrom [] s.data

/-- The text `s` does not contain the character `c`. -/
def Avoids (c : Char) (s : String) : Prop := c ∉ s.data

/-- The file-level header, without its newline. -/
def fileHeaderText : String :=
  "\t".intercalate
    ["#", "JETSCAPE_FINAL_STATE", "v3", "|", "N", "pid", "status", "E", "Px", "Py", "Pz"]

/-- The cross-section footer, without its newline. -/
def footerText (h : JetScapeEventHeader) : String :=
  "\t".intercalate ["#", "sigmaGen", formatG 6 h.SigmaGen, "sigmaErr", formatG 6 h.SigmaErr]

/-- A line that starts like a cross-section footer. -/
def isFooterLine (l : String) : Bool := "#\tsigmaGen\t".data.isPrefixOf l.data

/-- A line that starts like an event header. -/
def isEventHeaderLine (l : String) : Bool := "#\tEvent\t".data.isPrefixOf l.data

/-- The lines, without their newlines, that a sequence of calls writes on an
open writer with label `label`, header version `version` and buffer `buf`. -/
def eventLines (label : String) (version : Nat) : List Call → List Particle → List String
  | [], _ => []
  | Call.WriteEvent fw :: cs, buf =>
      (eventHeaderText fw label version buf.length :: particleTexts buf)
        ++ eventLines label version cs []
  | Call.WriteShower ps :: cs, buf =>
      eventLines label version cs (buf ++ (Call.WriteShower ps).records)
  | Call.WriteHadron h :: cs, buf =>
      eventLines label version cs (buf ++ (Call.WriteHadron h).records)
  | Call.Exec :: cs, buf => eventLines label version cs buf

/-- The fields every event header starts with. -/
def baseFields (fw : Framework) (label : String) (count : Nat) : List String :=
  ["#", "Event", toString (fw.currentEvent + 1), "weight", formatG 15 fw.header.EventWeight,
    "EPangle", angleField fw.header.EventPlaneAngle, "N_" ++ label, toString count]

/-- `printf("%.<prec>f")` of a `double`: fixed notation, `prec` digits after the
decimal point. -/
def formatF (prec : Nat) : Double → String
  | .finite neg m e => signText neg ++ fixedMag prec (m * 2 ^ e.toNat) (2 ^ (-e).toNat)
  | .inf neg => signText neg ++ "inf"
  | .nan neg => signText neg ++ "nan"

/-- The number that a string of decimal digits denotes. -/
def digitsValue (l : List Char) : Nat :=
  l.foldl (fun acc c => acc * 10 + (c.toNat - 48)) 0

/-- What a reader of a particle line can recover of a record: pid, status and
the texts of E, Px, Py, Pz at six significant digits. -/
def recordKey (p : Particle) : Int × Int × String × String × String × String :=
  (p.pid, p.pstat, formatG 6 p.e, formatG 6 p.px, formatG 6 p.py, formatG 6 p.pz)

/-- The events that a sequence of calls flushes, in order: for each `WriteEvent`
its framework and the buffer it writes; `buf` is the buffer at the start. -/
def flushedEvents : List Call → List Particle → List (Framework × List Particle)
  | [], _ => []
  | Call.WriteEvent fw :: cs, buf => (fw, buf) :: flushedEvents cs []
  | Call.WriteShower ps :: cs, buf => flushedEvents cs (buf ++ (Call.WriteShower ps).records)
  | Call.WriteHadron h :: cs, buf => flushedEvents cs (buf ++ (Call.WriteHadron h).records)
  | Call.Exec :: cs, buf => flushedEvents cs buf

/-! ## Concrete inputs -/

/-- The `double` nearest to 0.1. -/
def d0_1 : Double := .finite false 3602879701896397 (-55)

/-- The `double` nearest to 0.2. -/
def d0_2 : Double := .finite false 3602879701896397 (-54)

/-- The `double` nearest to 0.3. -/
def d0_3 : Double := .finite false 5404319552844595 (-54)

/-- The `double` nearest to 5.2. -/
def d5_2 : Double := .finite false 5854679515581645 (-50)

/-- The hadron of Scenario A: pid 211, status 0, E 1.0, momentum (0.1, 0.2, 0.3). -/
def pion : Particle :=
  { pid := 211, pstat := 0, e := Double.ofInt 1, px := d0_1, py := d0_2, pz := d0_3 }

/-- A header with weight 1, the unset event-plane angle -999 and the
cross-section of Scenario B. -/
def headerA : JetScapeEventHeader :=
  { EventWeight := Double.ofInt 1, EventPlaneAngle := Double.ofInt (-999),
    PtHat := Double.ofInt 0, VertexX := Double.ofInt 0, VertexY := Double.ofInt 0,
    VertexZ := Double.ofInt 0, SigmaGen := d5_2, SigmaErr := d0_1 }

/-- The framework of Scenario A: event 0, no pt_hat, no configured header version. -/
def frameworkA : Framework :=
  { header := headerA, currentEvent := 0, write_pthat := 0,
    final_state_writer_header_version := none }

/-- An active hadron writer. -/
def hadronBase : JetScapeWriter :=
  { active := true, name := "Hadron", file_name_out := "final_state_hadrons.dat" }

/-- A stream that has just been opened. -/
def openStream : OStream :=
  { isOpen := true, good := true, precision := 6, text := "", releases := 0 }

/-- An open writer holding the buffer `ps`. -/
def writerWith (ps : List Particle) : JetScapeWriterFinalStateStream :=
  { base := hadronBase, output_file := openStream, particles := ps, headerVersion := 2,
    log := [] }

/-- A session with one hadron and one event. -/
def oneEvent : List Call := [Call.WriteHadron (some pion), Call.WriteEvent frameworkA]

/-- The framework of Scenario A with the event-plane angle set to -1000. -/
def frameworkLowAngle : Framework :=
  { frameworkA with header := { headerA with EventPlaneAngle := Double.ofInt (-1000) } }

/-- The framework of Scenario A with pt_hat 10 and `write_pthat` set to 1. -/
def frameworkPtHat : Framework :=
  { frameworkA with
    header := { headerA with PtHat := Double.ofInt 10 }
    write_pthat := 1 }

/-- A parton of species `pid` with energy 2 along the z axis. -/
def parton (pid : Int) : Particle :=
  { pid := pid, pstat := 0, e := Double.ofInt 2, px := Double.ofInt 0, py := Double.ofInt 0,
    pz := Double.ofInt 2 }

/-- A shower of a gluon that branches into a final-state quark and antiquark. -/
def shower : PartonShower :=
  { partons := [(parton 21, true), (parton 2, false), (parton (-2), false)] }

/-- One live hadron reference, then one live shower reference. -/
def twoWrites : List Call := [Call.WriteHadron (some pion), Call.WriteShower (some shower)]

/-- An inactive hadron writer. -/
def inactiveBase : JetScapeWriter := { hadronBase with active := false }

/-- An active writer base whose name is in lower case. -/
def lowerBase : JetScapeWriter :=
  { active := true, name := "hadrons", file_name_out := "final_state_hadrons.dat" }

/-- A framework that configures header version 3. -/
def frameworkV3 : Framework := { frameworkA with final_state_writer_header_version := some 3 }

/-- The hadron of Scenario A with the energy `1 + 2^-30`. -/
def pionHeavier : Particle := { pion with e := .finite false 1073741825 (-30) }

/-- Two events with one hadron each. -/
def twoEvents (p q : Particle) : List Call :=
  [Call.WriteHadron (some p), Call.WriteEvent frameworkA,
    Call.WriteHadron (some q), Call.WriteEvent frameworkA]

/-! ## Theorems -/

namespace OStream

theorem write_ready {o : OStream} (h : o.Ready) (s : String) :
    o.write s = { o with text := o.text ++ s } := by
  obtain ⟨h₁, h₂⟩ := h
  simp [write, h₁, h₂]

end OStream

theorem writeParticles_ready (ps : List Particle) :
    ∀ (out : OStream) (k : Nat), out.Ready →
      JetScapeWriterFinalStateStream.writeParticles out (k % 2 ^ 32) ps =
        { out with text := out.text ++
            catLines ((ps.enumFrom k).map
              fun ip => particleLineAt out.precision (ip.1 % 2 ^ 32) ip.2) } := by
  induction ps with
  | nil => intro out k _; simp [JetScapeWriterFinalStateStream.writeParticles, catLines]
  | cons p rest ih =>
      intro out k h
      obtain ⟨io, g, prec, text, rel⟩ := out
      obtain ⟨h₁, h₂⟩ := h
      simp only at h₁ h₂
      subst h₁ h₂
      have hk : (k % 2 ^ 32 + 1) % 2 ^ 32 = (k + 1) % 2 ^ 32 := by omega
      simp only [JetScapeWriterFinalStateStream.writeParticles, hk]
      rw [ih]
      · simp [OStream.str, OStream.nat, OStream.int, OStream.double, OStream.write,
          particleLineAt, particleTextAt, String.intercalate, String.intercalate.go, catLines,
          String.append_assoc]
      · simp [OStream.Ready, OStream.str, OStream.nat, OStream.int, OStream.double, OStream.write]


theorem formatG_zero : formatG 6 (Double.ofInt 0) = "0" := by decide

/-- The concrete doubles used below are binary64 values, identified by their
seventeen significant digits. -/
theorem concrete_doubles :
    (d0_1.isBinary64 = true ∧ formatG 17 d0_1 = "0.10000000000000001")
      ∧ (d0_2.isBinary64 = true ∧ formatG 17 d0_2 = "0.20000000000000001")
      ∧ (d0_3.isBinary64 = true ∧ formatG 17 d0_3 = "0.29999999999999999")
      ∧ (d5_2.isBinary64 = true ∧ formatG 17 d5_2 = "5.2000000000000002")
      ∧ (Double.ofInt (-1000)).isBinary64 = true ∧ (Double.ofInt (-999)).isBinary64 = true := by
  decide

theorem eventHeaderLine_eq (fw : Framework) (label : String) (version count : Nat) :
    "\t".intercalate (eventHeaderFields fw label version count) ++ "\n" =
      eventHeaderLine fw label version count := rfl

namespace JetScapeWriterFinalStateStream

/-- On an open stream without error, `WriteEvent` appends the event header and
the particle lines, leaves the precision at 6 and empties the buffer. -/
theorem WriteEvent_ready (fw : Framework) (w : JetScapeWriterFinalStateStream)
    (h : w.output_file.Ready) :
    WriteEvent fw w =
      { w with
        output_file :=
          { w.output_file with
            precision := 6
            text := w.output_file.text ++
              (eventHeaderLine fw (GetName w) w.headerVersion w.particles.length ++
                catLines (particleLines w.particles)) }
        particles := [] } := by
  obtain ⟨base, ⟨io, g, prec, text, rel⟩, ps, hv, log⟩ := w
  obtain ⟨h₁, h₂⟩ := h
  simp only at h₁ h₂
  subst h₁ h₂
  have hz : (0 : Nat) = 0 % 2 ^ 32 := by norm_num
  have hN : ∀ x : String, "\t" ++ ("N_" ++ x) = "\tN_" ++ x := fun x => by
    rw [← String.append_assoc]; rfl
  unfold WriteEvent
  simp only []
  rw [hz, writeParticles_ready]
  · by_cases hv3 : hv = 3 <;> by_cases hp : fw.write_pthat = 0 <;>
      simp [hv3, hp, OStream.str, OStream.nat, OStream.int, OStream.double, OStream.write,
        OStream.setprecision, eventHeaderLine, eventHeaderText, eventHeaderFields,
        vertexFields, ptHatFields, angleField, GetName, particleLines, particleTexts, List.enum,
        particleLineAt, Function.comp_def,
        String.intercalate, String.intercalate.go, String.append_assoc, apply_ite (formatG 6),
        formatG_zero, hN]
  · by_cases hv3 : hv = 3 <;>
      simp [hv3, OStream.Ready, OStream.str, OStream.nat, OStream.int, OStream.double,
        OStream.write, OStream.setprecision]

end JetScapeWriterFinalStateStream

/-! ### Formatted numbers -/

theorem numeric_append {a b : String} (ha : Numeric a) (hb : Numeric b) : Numeric (a ++ b) := by
  intro c hc
  rw [String.data_append, List.mem_append] at hc
  exact hc.elim (ha c) (hb c)

theorem digitChar_numeric (k : Nat) (hk : k < 10) : numericChar (Nat.digitChar k) = true := by
  interval_cases k <;> decide

theorem toDigitsCore_numeric (fuel : Nat) :
    ∀ (n : Nat) (ds : List Char), (∀ c ∈ ds, numericChar c = true) →
      ∀ c ∈ Nat.toDigitsCore 10 fuel n ds, numericChar c = true := by
  induction fuel with
  | zero => intro n ds hds; simpa [Nat.toDigitsCore] using hds
  | succ fuel ih =>
      intro n ds hds
      have hd : ∀ c ∈ Nat.digitChar (n % 10) :: ds, numericChar c = true := by
        intro c hc
        rcases List.mem_cons.mp hc with h | h
        · rw [h]; exact digitChar_numeric _ (Nat.mod_lt _ (by norm_num))
        · exact hds c h
      simp only [Nat.toDigitsCore]
      split
      · exact hd
      · exact ih _ _ hd

theorem numeric_nat (n : Nat) : Numeric (toString n) := by
  intro c hc
  exact toDigitsCore_numeric _ n [] (by simp) c hc

theorem numeric_int (i : Int) : Numeric (toString i) := by
  cases i with
  | ofNat n => exact numeric_nat n
  | negSucc n =>
      show Numeric ("-" ++ toString (n + 1))
      exact numeric_append (by intro c hc; simp at hc; subst hc; decide) (numeric_nat _)

theorem numeric_literal (s : String) (h : s.data.all numericChar = true) : Numeric s := by
  intro c hc
  exact List.all_eq_true.mp h c hc

theorem numeric_zeroPad (w : Nat) (s : String) (hs : Numeric s) : Numeric (zeroPad w s) := by
  refine numeric_append ?_ hs
  intro c hc
  simp only [List.mem_replicate] at hc
  rw [hc.2]; decide

theorem numeric_stripZeros (s : String) (hs : Numeric s) : Numeric (stripZeros s) := by
  unfold stripZeros
  split
  · intro c hc
    simp only [List.mem_reverse] at hc
    have hsub : ∀ c ∈ s.data.reverse.dropWhile (fun c => c == '0'), numericChar c = true :=
      fun c hc => hs c (List.mem_reverse.mp ((List.dropWhile_sublist _).subset hc))
    split at hc
    · next t ht => exact hsub c (by rw [ht]; exact List.mem_cons_of_mem _ hc)
    · exact hsub c hc
  · exact hs

theorem numeric_fixedMag (p num den : Nat) : Numeric (fixedMag p num den) := by
  unfold fixedMag
  simp only
  split
  · exact numeric_nat _
  · exact numeric_append (numeric_append (numeric_nat _) (numeric_literal "." (by decide)))
      (numeric_zeroPad _ _ (numeric_nat _))

theorem numeric_expText (x : Int) : Numeric (expText x) := by
  unfold expText
  refine numeric_append ?_ (numeric_zeroPad _ _ (numeric_nat _))
  split
  · exact numeric_literal "-" (by decide)
  · exact numeric_literal "+" (by decide)

theorem numeric_ite {c : Prop} [Decidable c] {a b : String} (ha : Numeric a) (hb : Numeric b) :
    Numeric (if c then a else b) := by
  split
  · exact ha
  · exact hb

theorem numeric_generalMag (prec num den : Nat) : Numeric (generalMag prec num den) := by
  unfold generalMag
  simp only
  generalize (if prec = 0 then 1 else prec) = P
  refine numeric_ite (numeric_literal "0" (by decide)) (numeric_ite ?_ ?_)
  · refine numeric_append (numeric_append (numeric_stripZeros _ ?_)
      (numeric_literal "e" (by decide))) (numeric_expText _)
    intro c hc
    simp only [List.mem_append] at hc
    rcases hc with hc | hc
    · exact numeric_nat _ c (List.mem_of_mem_take hc)
    · by_cases hP : P = 1
      · simp [hP] at hc
      · rw [if_neg hP] at hc
        rcases List.mem_cons.mp hc with h | h
        · rw [h]; decide
        · exact numeric_nat _ c (List.mem_of_mem_drop h)
  · exact numeric_stripZeros _ (numeric_fixedMag _ _ _)

theorem numeric_signText (neg : Bool) : Numeric (signText neg) := by
  cases neg <;> exact numeric_literal _ (by decide)

theorem numeric_formatG (prec : Nat) (x : Double) : Numeric (formatG prec x) := by
  cases x with
  | finite neg m e => exact numeric_append (numeric_signText _) (numeric_generalMag _ _ _)
  | inf neg => exact numeric_append (numeric_signText _) (numeric_literal "inf" (by decide))
  | nan neg => exact numeric_append (numeric_signText _) (numeric_literal "nan" (by decide))

theorem numeric_to_string (x : Double) : Numeric (to_string x) := by
  cases x with
  | finite neg m e => exact numeric_append (numeric_signText _) (numeric_fixedMag _ _ _)
  | inf neg => exact numeric_append (numeric_signText _) (numeric_literal "inf" (by decide))
  | nan neg => exact numeric_append (numeric_signText _) (numeric_literal "nan" (by decide))

/-! ### The writer -/

namespace JetScapeWriterFinalStateStream

theorem string_append_cancel {a b c : String} (h : a ++ b = a ++ c) : b = c := by
  have h' := congrArg String.data h
  simp only [String.data_append, List.append_cancel_left_eq] at h'
  exact String.ext h'

theorem catLines_append (xs ys : List String) :
    catLines (xs ++ ys) = catLines xs ++ catLines ys := by
  induction xs with
  | nil => simp [catLines]
  | cons x xs ih => simp [catLines, ih, String.append_assoc]

theorem particleLines_length (ps : List Particle) : (particleLines ps).length = ps.length := by
  simp [particleLines, particleTexts]

theorem particleLines_get (ps : List Particle) (i : Nat) :
    (particleLines ps)[i]? = ps[i]?.map fun p => particleLineAt 6 (i % 2 ^ 32) p := by
  simp only [particleLines, particleTexts, List.map_map, List.getElem?_map, List.getElem?_enum]
  cases ps[i]? <;> simp [particleLineAt]

/-- C1 (amended): on an open stream, for every buffer of `n` records and every
header state, `WriteEvent` appends exactly one event-header line whose field
after `N_<Label>` is `n`, followed by exactly `n` particle lines and nothing
else; line `i` consists of the 32-bit counter `i mod 2^32`, then pid, status,
E, Px, Py, Pz of record `i`, separated by single spaces and ended by a newline. -/
theorem WriteEvent_emits_header_and_particle_lines (fw : Framework)
    (w : JetScapeWriterFinalStateStream) (h : w.output_file.Ready) :
    (WriteEvent fw w).output_file.text =
        w.output_file.text ++
          ("\t".intercalate (eventHeaderFields fw (GetName w) w.headerVersion w.particles.length)
            ++ "\n" ++
            catLines (particleLines w.particles))
      ∧ (eventHeaderFields fw (GetName w) w.headerVersion w.particles.length)[7]? =
          some ("N_" ++ GetName w)
      ∧ (eventHeaderFields fw (GetName w) w.headerVersion w.particles.length)[8]? =
          some (toString w.particles.length)
      ∧ (particleLines w.particles).length = w.particles.length
      ∧ ∀ (i : Nat) (p : Particle), w.particles[i]? = some p →
          (particleLines w.particles)[i]? =
            some (toString (i % 2 ^ 32) ++ " " ++ toString p.pid ++ " " ++ toString p.pstat
              ++ " " ++ formatG 6 p.e ++ " " ++ formatG 6 p.px ++ " " ++ formatG 6 p.py
              ++ " " ++ formatG 6 p.pz ++ "\n") := by
  refine ⟨?_, ?_, ?_, particleLines_length _, ?_⟩
  · rw [WriteEvent_ready fw w h, eventHeaderLine_eq]
  · simp [eventHeaderFields]
  · simp [eventHeaderFields]
  · intro i p hp
    rw [particleLines_get, hp]
    simp [particleLineAt, particleTextAt, String.intercalate, String.intercalate.go,
      String.append_assoc]

theorem WriteEvent_emits_header_and_particle_lines_witness :
    (writerWith [pion]).output_file.Ready ∧
      (WriteEvent frameworkA (writerWith [pion])).output_file.text =
        "#\tEvent\t1\tweight\t1\tEPangle\t0\tN_Hadron\t1\n0 211 0 1 0.1 0.2 0.3\n" := by
  refine ⟨⟨rfl, rfl⟩, ?_⟩
  rw [(WriteEvent_emits_header_and_particle_lines frameworkA (writerWith [pion]) ⟨rfl, rfl⟩).1]
  decide

/-- Below `2^32` records the counter does not wrap. -/
theorem particleLines_eq_spec (ps : List Particle) (h : ps.length ≤ 2 ^ 32) :
    particleLines ps = specParticleLines ps := by
  unfold particleLines particleTexts specParticleLines
  rw [List.map_map]
  apply List.map_congr_left
  intro ip hip
  have := List.fst_lt_of_mem_enum hip
  simp only [Function.comp_apply, particleLineAt]
  rw [Nat.mod_eq_of_lt (by omega)]

/-- The line of record `2^32` carries the index `0`. -/
theorem particleLines_snoc (l : List Particle) (p : Particle) (hl : l.length = 2 ^ 32) :
    particleLines (l ++ [p]) = particleLines l ++ [particleLineAt 6 0 p] := by
  simp [particleLines, particleTexts, particleLineAt, List.enum, List.enumFrom_append, hl]

theorem particleLines_last (l : List Particle) (p : Particle) (hl : l.length = 2 ^ 32) :
    (particleLines (l ++ [p]))[2 ^ 32]? = some (particleLineAt 6 0 p) := by
  have hlen : (particleLines l).length = 2 ^ 32 := by rw [particleLines_length, hl]
  rw [particleLines_snoc l p hl, List.getElem?_append_right (by rw [hlen]), hlen, Nat.sub_self]
  rfl

/-- With one record more than `2^32` the text differs from the lines numbered
`0, 1, ..., 2^32`. -/
theorem particleLines_wrap (l : List Particle) (p : Particle) (hl : l.length = 2 ^ 32) :
    catLines (particleLines (l ++ [p])) ≠ catLines (specParticleLines (l ++ [p])) := by
  have h₁ := particleLines_snoc l p hl
  have h₂ : specParticleLines (l ++ [p]) =
      specParticleLines l ++ [particleLineAt 6 (2 ^ 32) p] := by
    simp [specParticleLines, List.enum, List.enumFrom_append, hl]
  rw [h₁, h₂, catLines_append, catLines_append, particleLines_eq_spec l (by omega)]
  intro h
  have h' := congrArg String.data (string_append_cancel h)
  simp [catLines, particleLineAt, particleTextAt, String.intercalate, String.intercalate.go]
    at h'
  revert h'
  decide

/-- C1, counterexample: with a buffer of `2^32 + 1` records the text written by
`WriteEvent` is not the header followed by the lines numbered `0, 1, ..., 2^32`:
the `unsigned int` counter wraps, and the last line carries the index `0`. -/
theorem WriteEvent_index_wraps :
    (WriteEvent frameworkA (writerWith (List.replicate (2 ^ 32) pion ++ [pion]))).output_file.text
        ≠ (writerWith (List.replicate (2 ^ 32) pion ++ [pion])).output_file.text ++
          ("\t".intercalate (eventHeaderFields frameworkA "Hadron" 2 (2 ^ 32 + 1)) ++ "\n" ++
            catLines (specParticleLines (List.replicate (2 ^ 32) pion ++ [pion])))
      ∧ (particleLines (List.replicate (2 ^ 32) pion ++ [pion]))[2 ^ 32]? =
          some "0 211 0 1 0.1 0.2 0.3\n" := by
  refine ⟨?_, by rw [particleLines_last _ pion (List.length_replicate _ _)]; decide⟩
  rw [WriteEvent_ready frameworkA _ ⟨rfl, rfl⟩, eventHeaderLine_eq]
  intro h
  have h₁ := string_append_cancel h
  have hlen : (writerWith (List.replicate (2 ^ 32) pion ++ [pion])).particles.length
      = 2 ^ 32 + 1 := by
    show (List.replicate (2 ^ 32) pion ++ [pion]).length = 2 ^ 32 + 1
    rw [List.length_append, List.length_replicate]; rfl
  rw [hlen] at h₁
  exact particleLines_wrap _ pion (List.length_replicate _ _) (string_append_cancel h₁)

theorem WriteShower_some (pShower : PartonShower) (w : JetScapeWriterFinalStateStream) :
    WriteShower (some pShower) w =
      { w with particles := w.particles ++ pShower.GetFinalPartons } := by
  unfold WriteShower
  simp only
  generalize pShower.GetFinalPartons = l
  induction l generalizing w with
  | nil => simp
  | cons p l ih => simp [List.foldl_cons, ih]

theorem step_write (c : Call) (hc : c.isWrite = true) (w : JetScapeWriterFinalStateStream) :
    c.step w = { w with particles := w.particles ++ c.records } := by
  cases c with
  | WriteShower ps =>
      cases ps with
      | none => simp [Call.step, Call.records, WriteShower]
      | some s => simp [Call.step, Call.records, WriteShower_some]
  | WriteHadron h =>
      cases h with
      | none => simp [Call.step, Call.records, WriteHadron]
      | some s => simp [Call.step, Call.records, WriteHadron]
  | WriteEvent fw => simp [Call.isWrite] at hc
  | Exec => simp [Call.isWrite] at hc

theorem run_writes (calls : List Call) (hc : ∀ c ∈ calls, c.isWrite = true) :
    ∀ w : JetScapeWriterFinalStateStream,
      run calls w = { w with particles := w.particles ++ calls.flatMap Call.records } := by
  induction calls with
  | nil => intro w; simp [run]
  | cons c calls ih =>
      intro w
      have h₁ := step_write c (hc c (List.mem_cons_self _ _)) w
      have h₂ := ih (fun c' hc' => hc c' (List.mem_cons_of_mem _ hc')) (c.step w)
      simp only [run, List.foldl_cons] at h₂ ⊢
      rw [h₂, h₁]
      simp [List.flatMap_cons]

/-- C2: after `WriteEvent` the record buffer is empty, whatever it held before;
and on an open stream with an empty buffer `WriteEvent` appends exactly one
event-header line, whose count field is `0`, and no particle line. -/
theorem WriteEvent_empties_buffer (fw : Framework) (w : JetScapeWriterFinalStateStream) :
    (WriteEvent fw w).particles = [] ∧
      (w.output_file.Ready → w.particles = [] →
        (WriteEvent fw w).output_file.text =
            w.output_file.text ++
              ("\t".intercalate (eventHeaderFields fw (GetName w) w.headerVersion 0) ++ "\n")
          ∧ (eventHeaderFields fw (GetName w) w.headerVersion 0)[8]? = some "0") := by
  refine ⟨rfl, fun h hp => ⟨?_, ?_⟩⟩
  · rw [WriteEvent_ready fw w h, hp, eventHeaderLine_eq]
    simp [particleLines, catLines]
  · simp [eventHeaderFields]
    rfl

theorem WriteEvent_empties_buffer_witness :
    (WriteEvent frameworkA (writerWith [pion])).particles = [] ∧
      (writerWith []).output_file.Ready ∧ (writerWith []).particles = [] ∧
      (WriteEvent frameworkA (writerWith [])).output_file.text =
        "#\tEvent\t1\tweight\t1\tEPangle\t0\tN_Hadron\t0\n" := by
  refine ⟨(WriteEvent_empties_buffer frameworkA (writerWith [pion])).1, ⟨rfl, rfl⟩, rfl, ?_⟩
  rw [((WriteEvent_empties_buffer frameworkA (writerWith [])).2 ⟨rfl, rfl⟩ rfl).1]
  decide

/-- C3 (amended): after any sequence of `Write` calls on an open writer with an
empty buffer, `WriteEvent` writes a header whose count is the number of records
those calls handed over (one per live hadron reference, the final-state partons
of each live shower, none for an expired reference) and exactly that many
particle lines, in the order of the calls; the count is the number of calls
when every call handed over exactly one record. -/
theorem Write_then_WriteEvent (fw : Framework) (w : JetScapeWriterFinalStateStream)
    (calls : List Call) (hc : ∀ c ∈ calls, c.isWrite = true)
    (hw : w.particles = []) (h : w.output_file.Ready) :
    (WriteEvent fw (run calls w)).output_file.text =
        w.output_file.text ++
          ("\t".intercalate (eventHeaderFields fw (GetName w) w.headerVersion
              (calls.flatMap Call.records).length) ++ "\n" ++
            catLines (particleLines (calls.flatMap Call.records)))
      ∧ (eventHeaderFields fw (GetName w) w.headerVersion
            (calls.flatMap Call.records).length)[8]? =
          some (toString (calls.flatMap Call.records).length)
      ∧ (particleLines (calls.flatMap Call.records)).length =
          (calls.flatMap Call.records).length
      ∧ ((∀ c ∈ calls, c.records.length = 1) →
          (calls.flatMap Call.records).length = calls.length) := by
  refine ⟨?_, ?_, ?_, ?_⟩
  · rw [run_writes calls hc w,
      WriteEvent_ready fw
        ⟨w.base, w.output_file, w.particles ++ calls.flatMap Call.records, w.headerVersion,
          w.log⟩ h, eventHeaderLine_eq]
    simp [hw, GetName]
  · simp [eventHeaderFields]
  · exact particleLines_length _
  · intro h1
    clear hc
    induction calls with
    | nil => simp
    | cons c calls ih =>
        simp only [List.flatMap_cons, List.length_append, List.length_cons]
        rw [ih (fun c' hc' => h1 c' (List.mem_cons_of_mem _ hc')),
          h1 c (List.mem_cons_self _ _)]
        omega

theorem Write_then_WriteEvent_witness :
    (∀ c ∈ twoWrites, c.isWrite = true) ∧ (writerWith []).particles = []
      ∧ (writerWith []).output_file.Ready
      ∧ textLines (WriteEvent frameworkA (run twoWrites (writerWith []))).output_file.text =
        ["#\tEvent\t1\tweight\t1\tEPangle\t0\tN_Hadron\t3",
          "0 211 0 1 0.1 0.2 0.3",
          "1 2 0 2 0 0 2",
          "2 -2 0 2 0 0 2"] := by
  refine ⟨by decide, rfl, ⟨rfl, rfl⟩, ?_⟩
  rw [(Write_then_WriteEvent frameworkA (writerWith []) twoWrites (by decide) rfl ⟨rfl, rfl⟩).1]
  decide

/-- C3, counterexample: after one `Write` call with an expired hadron reference,
`WriteEvent` does not write a header with count 1 followed by one particle
line: it writes the count 0 and no particle line. -/
theorem Write_expired_reference_adds_no_line :
    ¬ ∃ lines : List String, lines.length = [Call.WriteHadron none].length ∧
      (WriteEvent frameworkA (run [Call.WriteHadron none] (writerWith []))).output_file.text =
        (writerWith []).output_file.text ++
          ("\t".intercalate (eventHeaderFields frameworkA "Hadron" 2 [Call.WriteHadron none].length)
            ++ "\n" ++
            catLines lines) := by
  rintro ⟨lines, -, h⟩
  have h₁ : (WriteEvent frameworkA (run [Call.WriteHadron none] (writerWith []))).output_file.text
      = "#\tEvent\t1\tweight\t1\tEPangle\t0\tN_Hadron\t0\n" := by decide
  have h₂ : eventHeaderLine frameworkA "Hadron" 2 [Call.WriteHadron none].length
      = "#\tEvent\t1\tweight\t1\tEPangle\t0\tN_Hadron\t1\n" := by decide
  rw [h₁, eventHeaderLine_eq, h₂] at h
  have h' := congrArg String.data h
  simp [writerWith, openStream] at h'

end JetScapeWriterFinalStateStream

/-! ### Lines -/

theorem avoids_append {c : Char} {a b : String} (ha : Avoids c a) (hb : Avoids c b) :
    Avoids c (a ++ b) := by
  unfold Avoids at *
  rw [String.data_append, List.mem_append]
  exact fun h => h.elim ha hb

theorem numeric_avoids {s : String} (hs : Numeric s) (c : Char) (hc : numericChar c = false) :
    Avoids c s := by
  intro hmem
  rw [hs c hmem] at hc
  exact Bool.noConfusion hc

theorem linesFrom_line (l : List Char) (hl : '\n' ∉ l) :
    ∀ (cur rest : List Char),
      linesFrom cur (l ++ '\n' :: rest) = String.mk (cur.reverse ++ l) :: linesFrom [] rest := by
  induction l with
  | nil => intro cur rest; simp [linesFrom]
  | cons c l ih =>
      intro cur rest
      have hc : c ≠ '\n' := fun h => hl (by simp [h])
      have hl' : '\n' ∉ l := fun h => hl (List.mem_cons_of_mem _ h)
      simp [linesFrom, hc, ih hl']

theorem textLines_line (l rest : String) (hl : Avoids '\n' l) :
    textLines (l ++ "\n" ++ rest) = l :: textLines rest := by
  unfold textLines
  have h := linesFrom_line l.data hl [] rest.data
  simp only [String.data_append, List.append_assoc] at h ⊢
  simpa using h

theorem textLines_lines (ls : List String) (hls : ∀ l ∈ ls, Avoids '\n' l) (rest : String) :
    textLines (catLines (ls.map fun l => l ++ "\n") ++ rest) = ls ++ textLines rest := by
  induction ls with
  | nil => simp [catLines]
  | cons l ls ih =>
      simp only [List.map_cons, catLines, String.append_assoc, List.cons_append]
      rw [← String.append_assoc l, textLines_line _ _ (hls l (List.mem_cons_self _ _)),
        ih (fun l' h' => hls l' (List.mem_cons_of_mem _ h'))]

theorem textLines_empty : textLines "" = [] := rfl

theorem intercalate_go (s : String) (ls : List String) :
    ∀ acc : String, String.intercalate.go acc s ls = acc ++ catLines (ls.map fun l => s ++ l) := by
  induction ls with
  | nil => intro acc; simp [String.intercalate.go, catLines]
  | cons l ls ih =>
      intro acc
      simp [String.intercalate.go, catLines, ih, String.append_assoc]

theorem intercalate_cons (s a : String) (ls : List String) :
    s.intercalate (a :: ls) = a ++ catLines (ls.map fun l => s ++ l) := by
  simp [String.intercalate, intercalate_go]

theorem avoids_catLines (c : Char) (ls : List String) (h : ∀ l ∈ ls, Avoids c l) :
    Avoids c (catLines ls) := by
  induction ls with
  | nil => simp [catLines, Avoids]
  | cons l ls ih =>
      exact avoids_append (h l (List.mem_cons_self _ _))
        (ih fun l' h' => h l' (List.mem_cons_of_mem _ h'))

theorem avoids_intercalate (c : Char) (s : String) (ls : List String) (hs : Avoids c s)
    (h : ∀ l ∈ ls, Avoids c l) : Avoids c (s.intercalate ls) := by
  cases ls with
  | nil => simp [String.intercalate, Avoids]
  | cons a ls =>
      rw [intercalate_cons]
      refine avoids_append (h a (List.mem_cons_self _ _)) (avoids_catLines _ _ ?_)
      intro l hl
      obtain ⟨l', hl', rfl⟩ := List.mem_map.mp hl
      exact avoids_append hs (h l' (List.mem_cons_of_mem _ hl'))


/-! ### Shapes of the lines -/

theorem numeric_angleField (a : Double) : Numeric (angleField a) := by
  unfold angleField
  exact numeric_ite (numeric_formatG _ _) (numeric_literal "0" (by decide))

theorem avoids_newline_eventHeaderText (fw : Framework) (label : String) (version count : Nat)
    (hl : Avoids '\n' label) : Avoids '\n' (eventHeaderText fw label version count) := by
  have hnum : ∀ s : String, Numeric s → Avoids '\n' s := fun s hs => numeric_avoids hs _ (by decide)
  have hlit : ∀ s : String, s.data.all (fun c => c != '\n') = true → Avoids '\n' s := by
    intro s hs hmem
    have := List.all_eq_true.mp hs _ hmem
    simp at this
  refine avoids_intercalate _ _ _ (hlit _ (by decide)) ?_
  intro l hmem
  simp only [eventHeaderFields, vertexFields, ptHatFields, List.mem_append, List.mem_cons,
    List.mem_singleton] at hmem
  rcases hmem with (h | h) | h
  · rcases h with h | h | h | h | h | h | h | h | h | h
    · rw [h]; exact hlit _ (by decide)
    · rw [h]; exact hlit _ (by decide)
    · rw [h]; exact hnum _ (numeric_int _)
    · rw [h]; exact hlit _ (by decide)
    · rw [h]; exact hnum _ (numeric_formatG _ _)
    · rw [h]; exact hlit _ (by decide)
    · rw [h]; exact hnum _ (numeric_angleField _)
    · rw [h]; exact avoids_append (hlit _ (by decide)) hl
    · rw [h]; exact hnum _ (numeric_nat _)
    · simp at h
  · split at h
    · simp only [List.mem_cons, List.mem_singleton] at h
      rcases h with h | h | h | h | h | h | h
      · rw [h]; exact hlit _ (by decide)
      · rw [h]; exact hnum _ (numeric_formatG _ _)
      · rw [h]; exact hlit _ (by decide)
      · rw [h]; exact hnum _ (numeric_formatG _ _)
      · rw [h]; exact hlit _ (by decide)
      · rw [h]; exact hnum _ (numeric_formatG _ _)
      · simp at h
    · simp at h
  · split at h
    · simp only [List.mem_cons, List.mem_singleton] at h
      rcases h with h | h | h
      · rw [h]; exact hlit _ (by decide)
      · rw [h]; exact hnum _ (numeric_to_string _)
      · simp at h
    · simp at h

theorem particleTextAt_fields (prec i : Nat) (p : Particle) :
    ∀ l ∈ [toString i, toString p.pid, toString p.pstat, formatG prec p.e, formatG prec p.px,
        formatG prec p.py, formatG prec p.pz], Numeric l := by
  intro l hmem
  simp only [List.mem_cons, List.mem_singleton] at hmem
  rcases hmem with h | h | h | h | h | h | h | h
  · rw [h]; exact numeric_nat _
  · rw [h]; exact numeric_int _
  · rw [h]; exact numeric_int _
  · rw [h]; exact numeric_formatG _ _
  · rw [h]; exact numeric_formatG _ _
  · rw [h]; exact numeric_formatG _ _
  · rw [h]; exact numeric_formatG _ _
  · simp at h

theorem avoids_newline_particleTextAt (prec i : Nat) (p : Particle) :
    Avoids '\n' (particleTextAt prec i p) := by
  refine avoids_intercalate _ _ _ (by unfold Avoids; decide) ?_
  intro l hmem
  exact numeric_avoids (particleTextAt_fields prec i p l hmem) _ (by decide)

/-- A particle line does not start with `#`. -/
theorem particleTextAt_head (prec i : Nat) (p : Particle) :
    (particleTextAt prec i p).data.head? ≠ some '#' := by
  unfold particleTextAt
  rw [intercalate_cons]
  simp only [List.map_cons, catLines, String.data_append]
  cases h : (toString i).data with
  | nil => simp
  | cons c cs =>
      have hc := numeric_nat i c (by rw [h]; exact List.mem_cons_self _ _)
      simp only [List.cons_append, List.head?_cons, ne_eq, Option.some.injEq]
      rintro rfl
      revert hc
      decide

theorem eventHeaderText_data (fw : Framework) (label : String) (version count : Nat) :
    ∃ r, (eventHeaderText fw label version count).data = '#' :: '\t' :: 'E' :: r := by
  unfold eventHeaderText eventHeaderFields
  simp only [List.cons_append, intercalate_cons, List.map_cons, catLines, String.data_append]
  exact ⟨_, rfl⟩

theorem footerText_data (h : JetScapeEventHeader) :
    ∃ r, (footerText h).data = "#\tsigmaGen\t".data ++ r := by
  unfold footerText
  simp only [intercalate_cons, List.map_cons, catLines, String.data_append]
  exact ⟨_, rfl⟩

theorem isFooterLine_footerText (h : JetScapeEventHeader) : isFooterLine (footerText h) = true := by
  obtain ⟨r, hr⟩ := footerText_data h
  unfold isFooterLine
  rw [hr, List.isPrefixOf_iff_prefix]
  exact List.prefix_append _ _

namespace JetScapeWriterFinalStateStream

/-- The lines a sequence of calls adds are event headers and particle lines. -/
theorem eventLines_shape (label : String) (version : Nat) (calls : List Call) :
    ∀ (buf : List Particle) (l : String), l ∈ eventLines label version calls buf →
      (∃ fw n, l = eventHeaderText fw label version n) ∨ ∃ i p, l = particleTextAt 6 i p := by
  induction calls with
  | nil => intro buf l h; simp [eventLines] at h
  | cons c calls ih =>
      intro buf l h
      cases c with
      | WriteShower ps => exact ih _ l (by simpa [eventLines] using h)
      | WriteHadron hh => exact ih _ l (by simpa [eventLines] using h)
      | Exec => exact ih _ l (by simpa [eventLines] using h)
      | WriteEvent fw =>
          simp only [eventLines, List.cons_append, List.mem_cons, List.mem_append] at h
          rcases h with h | h | h
          · exact Or.inl ⟨fw, _, h⟩
          · simp only [particleTexts, List.mem_map] at h
            obtain ⟨ip, -, rfl⟩ := h
            exact Or.inr ⟨_, _, rfl⟩
          · exact ih _ l h

theorem eventLines_avoid_newline (label : String) (version : Nat) (calls : List Call)
    (buf : List Particle) (hl : Avoids '\n' label) :
    ∀ l ∈ eventLines label version calls buf, Avoids '\n' l := by
  intro l h
  rcases eventLines_shape label version calls buf l h with ⟨fw, n, rfl⟩ | ⟨i, p, rfl⟩
  · exact avoids_newline_eventHeaderText _ _ _ _ hl
  · exact avoids_newline_particleTextAt _ _ _

/-- What a sequence of calls does to an open writer. -/
theorem run_ready (calls : List Call) :
    ∀ w : JetScapeWriterFinalStateStream, w.output_file.Ready →
      (run calls w).output_file.text =
          w.output_file.text ++
            catLines ((eventLines (GetName w) w.headerVersion calls w.particles).map
              fun l => l ++ "\n")
        ∧ (run calls w).output_file.Ready
        ∧ (w.output_file.precision = 6 → (run calls w).output_file.precision = 6)
        ∧ (run calls w).output_file.releases = w.output_file.releases
        ∧ (run calls w).base = w.base
        ∧ (run calls w).headerVersion = w.headerVersion := by
  induction calls with
  | nil => intro w h; simp [run, eventLines, catLines, h]
  | cons c calls ih =>
      intro w h
      have hrun : run (c :: calls) w = run calls (c.step w) := rfl
      rw [hrun]
      cases c with
      | WriteShower ps =>
          have hs := step_write (Call.WriteShower ps) rfl w
          obtain ⟨h₁, h₂, h₃, h₄, h₅, h₆⟩ := ih ((Call.WriteShower ps).step w) (by rw [hs]; exact h)
          rw [hs] at h₁ h₂ h₃ h₄ h₅ h₆ ⊢
          exact ⟨by simpa [eventLines, GetName] using h₁, h₂, h₃, h₄, h₅, h₆⟩
      | WriteHadron hh =>
          have hs := step_write (Call.WriteHadron hh) rfl w
          obtain ⟨h₁, h₂, h₃, h₄, h₅, h₆⟩ := ih ((Call.WriteHadron hh).step w) (by rw [hs]; exact h)
          rw [hs] at h₁ h₂ h₃ h₄ h₅ h₆ ⊢
          exact ⟨by simpa [eventLines, GetName] using h₁, h₂, h₃, h₄, h₅, h₆⟩
      | Exec =>
          obtain ⟨h₁, h₂, h₃, h₄, h₅, h₆⟩ := ih w h
          exact ⟨by simpa [eventLines, Call.step, Exec] using h₁, h₂, h₃, h₄, h₅, h₆⟩
      | WriteEvent fw =>
          have hs : (Call.WriteEvent fw).step w = WriteEvent fw w := rfl
          have he := WriteEvent_ready fw w h
          have hr : (WriteEvent fw w).output_file.Ready := by rw [he]; exact h
          obtain ⟨h₁, h₂, h₃, h₄, h₅, h₆⟩ := ih (WriteEvent fw w) hr
          rw [hs]
          refine ⟨?_, h₂, fun _ => h₃ (by rw [he]), ?_, ?_, ?_⟩
          · rw [h₁, he]
            simp [eventLines, GetName, catLines, eventHeaderLine, particleLines, catLines_append,
              String.append_assoc]
          · rw [h₄, he]
          · rw [h₅, he]
          · rw [h₆, he]

/-- On an active writer whose stream is closed, `Init` resolves the header
version, opens the stream and writes the file-level header. -/
theorem Init_active (fw : Framework) (w : JetScapeWriterFinalStateStream)
    (hA : GetActive w = true) (hO : w.output_file.isOpen = false) :
    (Init fw w).output_file =
        { w.output_file with isOpen := true, good := true, text := fileHeaderText ++ "\n" }
      ∧ (Init fw w).particles = w.particles
      ∧ (Init fw w).base = w.base
      ∧ (Init fw w).headerVersion =
          if GetXMLElementInt fw ≠ 0 then (GetXMLElementInt fw % 2 ^ 32).toNat
          else w.headerVersion := by
  obtain ⟨base, ⟨io, g, prec, text, rel⟩, ps, hv, log⟩ := w
  simp only at hO
  subst hO
  have hf : fileHeaderText ++ "\n"
      = "#\tJETSCAPE_FINAL_STATE\tv3\t|\tN\tpid\tstatus\tE\tPx\tPy\tPz\n" := by decide
  unfold Init
  rw [if_pos hA, hf]
  by_cases hr : GetXMLElementInt fw = 0 <;>
    simp [hr, OStream.open_, OStream.str, OStream.write, String.append_assoc]

/-- On an open stream without error, `Close` writes the footer at the current
precision and releases the file. -/
theorem Close_ready (fw : Framework) (w : JetScapeWriterFinalStateStream)
    (h : w.output_file.Ready) (hp : w.output_file.precision = 6) :
    (Close fw w).output_file =
      { w.output_file with
        isOpen := false
        text := w.output_file.text ++ (footerText fw.header ++ "\n")
        releases := w.output_file.releases + 1 } := by
  obtain ⟨base, ⟨io, g, prec, text, rel⟩, ps, hv, log⟩ := w
  obtain ⟨h₁, h₂⟩ := h
  simp only at h₁ h₂ hp
  subst h₁ h₂ hp
  simp [Close, OStream.str, OStream.double, OStream.write, OStream.close, footerText,
    String.intercalate, String.intercalate.go, String.append_assoc]

/-- On a closed stream `Close` writes nothing and releases nothing. -/
theorem Close_closed (fw : Framework) (w : JetScapeWriterFinalStateStream)
    (hO : w.output_file.isOpen = false) :
    (Close fw w).output_file.text = w.output_file.text
      ∧ (Close fw w).output_file.releases = w.output_file.releases
      ∧ (Close fw w).output_file.isOpen = false
      ∧ (Close fw w).base = w.base := by
  obtain ⟨base, ⟨io, g, prec, text, rel⟩, ps, hv, log⟩ := w
  simp only at hO
  subst hO
  cases g <;> simp [Close, OStream.str, OStream.double, OStream.write, OStream.close]

/-- The state of the stream after `Init`, a sequence of calls and `Close`. -/
theorem session (fwI fwC : Framework) (calls : List Call) (w : JetScapeWriterFinalStateStream)
    (hA : GetActive w = true) (hF : w.output_file = OStream.fresh) :
    (run calls (Init fwI w)).output_file.text =
        fileHeaderText ++ "\n" ++
          catLines ((eventLines (GetName w) (Init fwI w).headerVersion calls w.particles).map
            fun l => l ++ "\n")
      ∧ (run calls (Init fwI w)).output_file.Ready
      ∧ (run calls (Init fwI w)).output_file.precision = 6
      ∧ (run calls (Init fwI w)).output_file.releases = 0
      ∧ GetActive (run calls (Init fwI w)) = true
      ∧ (Close fwC (run calls (Init fwI w))).output_file =
          { isOpen := false, good := true, precision := 6,
            text := fileHeaderText ++ "\n" ++
              catLines ((eventLines (GetName w) (Init fwI w).headerVersion calls w.particles).map
                fun l => l ++ "\n") ++ (footerText fwC.header ++ "\n"),
            releases := 1 } := by
  obtain ⟨i₁, i₂, i₃, -⟩ := Init_active fwI w hA (by rw [hF]; rfl)
  rw [hF] at i₁
  have hR : (Init fwI w).output_file.Ready := by rw [i₁]; exact ⟨rfl, rfl⟩
  obtain ⟨r₁, r₂, r₃, r₄, r₅, -⟩ := run_ready calls (Init fwI w) hR
  have hname : GetName (Init fwI w) = GetName w := by unfold GetName; rw [i₃]
  rw [hname, i₂] at r₁
  have hp := r₃ (by rw [i₁]; rfl)
  have ht : (run calls (Init fwI w)).output_file.text =
      fileHeaderText ++ "\n" ++
          catLines ((eventLines (GetName w) (Init fwI w).headerVersion calls w.particles).map
            fun l => l ++ "\n") := by
    rw [r₁, i₁]
  have hrel : (run calls (Init fwI w)).output_file.releases = 0 := by rw [r₄, i₁]; rfl
  refine ⟨ht, r₂, hp, hrel, ?_, ?_⟩
  · unfold GetActive at hA ⊢; rw [r₅, i₃]; exact hA
  · rw [Close_ready fwC _ r₂ hp, ht, hrel]
    simp only [hp, r₂.2, zero_add, String.append_assoc]

theorem avoids_newline_fileHeaderText : Avoids '\n' fileHeaderText := by
  unfold Avoids; decide

theorem avoids_newline_footerText (h : JetScapeEventHeader) : Avoids '\n' (footerText h) := by
  have hlit : ∀ s : String, s.data.all (fun c => c != '\n') = true → Avoids '\n' s := by
    intro s hs hmem
    have := List.all_eq_true.mp hs _ hmem
    simp at this
  refine avoids_intercalate _ _ _ (hlit _ (by decide)) ?_
  intro l hmem
  simp only [List.mem_cons, List.mem_singleton] at hmem
  rcases hmem with h | h | h | h | h | h
  · rw [h]; exact hlit _ (by decide)
  · rw [h]; exact hlit _ (by decide)
  · rw [h]; exact numeric_avoids (numeric_formatG _ _) _ (by decide)
  · rw [h]; exact hlit _ (by decide)
  · rw [h]; exact numeric_avoids (numeric_formatG _ _) _ (by decide)
  · simp at h

/-- A line that does not start with `#` is no header and no footer. -/
theorem plain_line (l : String) (h : l.data.head? ≠ some '#') :
    l ≠ fileHeaderText ∧ isFooterLine l = false ∧ isEventHeaderLine l = false := by
  refine ⟨?_, ?_, ?_⟩
  · rintro rfl
    exact h (by decide)
  · cases hd : l.data with
    | nil => simp [isFooterLine, hd]
    | cons c cs =>
        rw [hd] at h
        have hc : c ≠ '#' := fun hc => h (by simp [hc])
        have hc' : ('#' == c) = false := by simpa using fun h' => hc h'.symm
        show List.isPrefixOf ('#' :: _) l.data = false
        rw [hd, List.isPrefixOf, hc']
        rfl
  · cases hd : l.data with
    | nil => simp [isEventHeaderLine, hd]
    | cons c cs =>
        rw [hd] at h
        have hc : c ≠ '#' := fun hc => h (by simp [hc])
        have hc' : ('#' == c) = false := by simpa using fun h' => hc h'.symm
        show List.isPrefixOf ('#' :: _) l.data = false
        rw [hd, List.isPrefixOf, hc']
        rfl

/-- An event header is neither the file-level header nor a footer. -/
theorem eventHeaderText_kind (fw : Framework) (label : String) (version count : Nat) :
    eventHeaderText fw label version count ≠ fileHeaderText
      ∧ isFooterLine (eventHeaderText fw label version count) = false
      ∧ isEventHeaderLine (eventHeaderText fw label version count) = true := by
  obtain ⟨r, hr⟩ := eventHeaderText_data fw label version count
  refine ⟨?_, ?_, ?_⟩
  · intro h
    have h' := congrArg String.data h
    rw [hr] at h'
    revert h'
    simp [fileHeaderText, String.intercalate, String.intercalate.go]
  · show List.isPrefixOf ['#', '\t', 's', 'i', 'g', 'm', 'a', 'G', 'e', 'n', '\t'] _ = false
    rw [hr]
    simp [List.isPrefixOf]
  · unfold eventHeaderText eventHeaderFields
    simp only [List.cons_append, intercalate_cons, List.map_cons, catLines, String.data_append,
      isEventHeaderLine]
    rw [List.isPrefixOf_iff_prefix]
    exact ⟨_, rfl⟩

theorem eventLines_kind (label : String) (version : Nat) (calls : List Call)
    (buf : List Particle) :
    ∀ l ∈ eventLines label version calls buf, l ≠ fileHeaderText ∧ isFooterLine l = false := by
  intro l h
  rcases eventLines_shape label version calls buf l h with ⟨fw, n, rfl⟩ | ⟨i, p, rfl⟩
  · exact ⟨(eventHeaderText_kind _ _ _ _).1, (eventHeaderText_kind _ _ _ _).2.1⟩
  · exact ⟨(plain_line _ (particleTextAt_head _ _ _)).1, (plain_line _ (particleTextAt_head _ _ _)).2.1⟩

theorem footerText_ne_fileHeaderText (h : JetScapeEventHeader) :
    footerText h ≠ fileHeaderText := by
  intro he
  have h₁ := isFooterLine_footerText h
  rw [he] at h₁
  revert h₁
  decide

/-- The lines of the file after `Init`, a sequence of calls and `Close`. -/
theorem session_lines (fwI fwC : Framework) (calls : List Call)
    (w : JetScapeWriterFinalStateStream)
    (hA : GetActive w = true) (hF : w.output_file = OStream.fresh)
    (hN : Avoids '\n' (GetName w)) :
    textLines (run calls (Init fwI w)).output_file.text =
        fileHeaderText :: eventLines (GetName w) (Init fwI w).headerVersion calls w.particles
      ∧ textLines (Close fwC (run calls (Init fwI w))).output_file.text =
        fileHeaderText ::
          (eventLines (GetName w) (Init fwI w).headerVersion calls w.particles
            ++ [footerText fwC.header]) := by
  obtain ⟨h₁, -, -, -, -, h₂⟩ := session fwI fwC calls w hA hF
  have hE := eventLines_avoid_newline (GetName w) (Init fwI w).headerVersion calls w.particles hN
  constructor
  · rw [h₁, ← String.append_empty (catLines _), textLines_line _ _ avoids_newline_fileHeaderText,
      textLines_lines _ hE, textLines_empty, List.append_nil]
  · rw [h₂]
    simp only
    rw [String.append_assoc, textLines_line _ _ avoids_newline_fileHeaderText,
      textLines_lines _ hE, ← String.append_empty (footerText fwC.header ++ "\n"),
      textLines_line _ _ (avoids_newline_footerText _), textLines_empty]

end JetScapeWriterFinalStateStream

namespace JetScapeWriterFinalStateStream

theorem countP_footer (pre : List String) (f : String)
    (hpre : ∀ l ∈ pre, isFooterLine l = false) (hf : isFooterLine f = true) :
    (pre ++ [f]).countP isFooterLine = 1 := by
  rw [List.countP_append, List.countP_eq_zero.mpr (by simpa using hpre)]
  simp [hf]

/-- C4: after `Init` on an active writer with a never-opened stream, any sequence
of `Write`, `WriteEvent` and `Exec` calls (none included) and `Close`, the first
line of the output is the file-level header, it occurs exactly once, no later
line equals it, and it is not an event-header line.  The label is assumed to
contain no newline. -/
theorem file_header_exactly_once (fwI fwC : Framework) (calls : List Call)
    (w : JetScapeWriterFinalStateStream)
    (hA : GetActive w = true) (hF : w.output_file = OStream.fresh)
    (hN : Avoids '\n' (GetName w)) :
    textLines (Close fwC (run calls (Init fwI w))).output_file.text =
        fileHeaderText ::
          (eventLines (GetName w) (Init fwI w).headerVersion calls w.particles
            ++ [footerText fwC.header])
      ∧ fileHeaderText ∉
          eventLines (GetName w) (Init fwI w).headerVersion calls w.particles
            ++ [footerText fwC.header]
      ∧ (textLines (Close fwC (run calls (Init fwI w))).output_file.text).count fileHeaderText = 1
      ∧ isEventHeaderLine fileHeaderText = false
      ∧ fileHeaderText = "#\tJETSCAPE_FINAL_STATE\tv3\t|\tN\tpid\tstatus\tE\tPx\tPy\tPz" := by
  have hL := (session_lines fwI fwC calls w hA hF hN).2
  have hnot : fileHeaderText ∉
      eventLines (GetName w) (Init fwI w).headerVersion calls w.particles
        ++ [footerText fwC.header] := by
    intro hmem
    rcases List.mem_append.mp hmem with h | h
    · exact (eventLines_kind _ _ _ _ _ h).1 rfl
    · exact footerText_ne_fileHeaderText fwC.header (List.mem_singleton.mp h).symm
  refine ⟨hL, hnot, ?_, by decide, by decide⟩
  rw [hL, List.count_cons_self, List.count_eq_zero_of_not_mem hnot]

theorem file_header_exactly_once_witness :
    GetActive (construct hadronBase) = true
      ∧ (constructWithFileName hadronBase 7 "out.dat").output_file = OStream.fresh
      ∧ textLines (Close frameworkA (run oneEvent (Init frameworkA (construct hadronBase)))
          ).output_file.text =
        ["#\tJETSCAPE_FINAL_STATE\tv3\t|\tN\tpid\tstatus\tE\tPx\tPy\tPz",
          "#\tEvent\t1\tweight\t1\tEPangle\t0\tN_Hadron\t1",
          "0 211 0 1 0.1 0.2 0.3",
          "#\tsigmaGen\t5.2\tsigmaErr\t0.1"]
      ∧ textLines (Close frameworkA (run [] (Init frameworkA
          (constructWithFileName hadronBase 7 "out.dat")))).output_file.text =
        ["#\tJETSCAPE_FINAL_STATE\tv3\t|\tN\tpid\tstatus\tE\tPx\tPy\tPz",
          "#\tsigmaGen\t5.2\tsigmaErr\t0.1"] := by
  refine ⟨rfl, rfl, ?_, ?_⟩
  · rw [(file_header_exactly_once frameworkA frameworkA oneEvent (construct hadronBase) rfl rfl
      (by unfold Avoids; decide)).1]
    decide
  · rw [(file_header_exactly_once frameworkA frameworkA [] (constructWithFileName hadronBase 7
      "out.dat") rfl rfl (by unfold Avoids; decide)).1]
    decide

/-- C5: in such a session the cross-section footer, the tab-joined `#`,
`sigmaGen`, sigmaGen, `sigmaErr`, sigmaErr, is the last line of the output after
`Close`, exactly one line of the output is a footer line, and no line written
before `Close` (by `Init`, `Write` or `WriteEvent`) is one. -/
theorem footer_exactly_once_and_last (fwI fwC : Framework) (calls : List Call)
    (w : JetScapeWriterFinalStateStream)
    (hA : GetActive w = true) (hF : w.output_file = OStream.fresh)
    (hN : Avoids '\n' (GetName w)) :
    textLines (Close fwC (run calls (Init fwI w))).output_file.text =
        textLines (run calls (Init fwI w)).output_file.text ++ [footerText fwC.header]
      ∧ (∀ l ∈ textLines (run calls (Init fwI w)).output_file.text, isFooterLine l = false)
      ∧ (textLines (Close fwC (run calls (Init fwI w))).output_file.text).countP isFooterLine = 1
      ∧ (textLines (Close fwC (run calls (Init fwI w))).output_file.text).getLast? =
          some (footerText fwC.header)
      ∧ footerText fwC.header =
          "#" ++ "\t" ++ "sigmaGen" ++ "\t" ++ formatG 6 fwC.header.SigmaGen ++ "\t"
            ++ "sigmaErr" ++ "\t" ++ formatG 6 fwC.header.SigmaErr := by
  obtain ⟨h₁, h₂⟩ := session_lines fwI fwC calls w hA hF hN
  have hpre : ∀ l ∈ textLines (run calls (Init fwI w)).output_file.text,
      isFooterLine l = false := by
    intro l hl
    rw [h₁] at hl
    rcases List.mem_cons.mp hl with h | h
    · rw [h]; decide
    · exact (eventLines_kind _ _ _ _ _ h).2
  have hsplit : textLines (Close fwC (run calls (Init fwI w))).output_file.text =
      textLines (run calls (Init fwI w)).output_file.text ++ [footerText fwC.header] := by
    rw [h₁, h₂]; rfl
  refine ⟨hsplit, hpre, ?_, ?_, ?_⟩
  · rw [hsplit]
    exact countP_footer _ _ hpre (isFooterLine_footerText _)
  · rw [hsplit]; simp
  · simp [footerText, String.intercalate, String.intercalate.go, String.append_assoc]

theorem footer_exactly_once_and_last_witness :
    GetActive (construct hadronBase) = true
      ∧ footerText headerA = "#\tsigmaGen\t5.2\tsigmaErr\t0.1"
      ∧ (textLines (Close frameworkA (run oneEvent (Init frameworkA (construct hadronBase)))
          ).output_file.text).getLast? = some "#\tsigmaGen\t5.2\tsigmaErr\t0.1" := by
  refine ⟨rfl, by decide, ?_⟩
  rw [(footer_exactly_once_and_last frameworkA frameworkA oneEvent (construct hadronBase) rfl rfl
      (by unfold Avoids; decide)).2.2.2.1]
  decide

theorem footer_count (fwI fwC : Framework) (calls : List Call)
    (w : JetScapeWriterFinalStateStream)
    (hA : GetActive w = true) (hF : w.output_file = OStream.fresh)
    (hN : Avoids '\n' (GetName w)) :
    (textLines (Close fwC (run calls (Init fwI w))).output_file.text).countP isFooterLine = 1 := by
  obtain ⟨h₁, h₂⟩ := session_lines fwI fwC calls w hA hF hN
  rw [h₂, ← List.cons_append]
  refine countP_footer _ _ ?_ (isFooterLine_footerText _)
  intro l hl
  rcases List.mem_cons.mp hl with h | h
  · rw [h]; decide
  · exact (eventLines_kind _ _ _ _ _ h).2

theorem SetActive_same (w : JetScapeWriterFinalStateStream) (hA : GetActive w = true) :
    SetActive w true = w := by
  obtain ⟨⟨active, name, file⟩, out, ps, hv, log⟩ := w
  simp only [GetActive] at hA
  subst hA
  rfl

theorem no_footer_before_Close (fwI : Framework) (calls : List Call)
    (w : JetScapeWriterFinalStateStream)
    (hA : GetActive w = true) (hF : w.output_file = OStream.fresh)
    (hN : Avoids '\n' (GetName w)) :
    (textLines (run calls (Init fwI w)).output_file.text).countP isFooterLine = 0 := by
  rw [(session_lines fwI fwI calls w hA hF hN).1, List.countP_eq_zero]
  intro l hl
  rcases List.mem_cons.mp hl with h | h
  · rw [h]; decide
  · rw [(eventLines_kind _ _ _ _ _ h).2]; decide

theorem destructor_switched_off (fw : Framework) (s : JetScapeWriterFinalStateStream) :
    (destructor fw (SetActive s false)).output_file = s.output_file.destroy := rfl

theorem teardown_switched_off (fwI fwD : Framework) (calls : List Call)
    (w : JetScapeWriterFinalStateStream)
    (hA : GetActive w = true) (hF : w.output_file = OStream.fresh) :
    (destructor fwD (SetActive (run calls (Init fwI w)) false)).output_file.text =
        (run calls (Init fwI w)).output_file.text
      ∧ (destructor fwD (SetActive (run calls (Init fwI w)) false)).output_file.releases = 1
      ∧ (destructor fwD (SetActive (run calls (Init fwI w)) false)).output_file.isOpen = false := by
  obtain ⟨-, hR, -, hrel, -, -⟩ := session fwI fwD calls w hA hF
  rw [destructor_switched_off]
  unfold OStream.destroy
  rw [if_pos hR.1, hrel]
  exact ⟨rfl, rfl, rfl⟩

/-- C6 (amended): after `Init` opened the stream of an active writer, the
destructor decides by the active flag, not by the open stream.  Torn down while
still marked active, as `Init` and the write calls leave it, the writer gets
exactly one footer line and its file is released exactly once: without an
explicit `Close` the destructor writes what `Close` writes, and after an
explicit `Close` the destructor adds no text and releases nothing again,
whatever the flag is then.  Torn down after it was switched off, without an
explicit `Close`, the writer gets no footer line: the text stays as it was, and
the file is released once, by the destructor of the stream. -/
theorem teardown_by_active_flag (fwI fwC fwD : Framework) (calls : List Call)
    (w : JetScapeWriterFinalStateStream) (a : Bool)
    (hA : GetActive w = true) (hF : w.output_file = OStream.fresh)
    (hN : Avoids '\n' (GetName w)) :
    (GetActive (run calls (Init fwI w)) = true
        ∧ SetActive (run calls (Init fwI w)) true = run calls (Init fwI w))
      ∧ ((destructor fwD (run calls (Init fwI w))).output_file.text =
          (Close fwD (run calls (Init fwI w))).output_file.text
        ∧ (textLines (destructor fwD (run calls (Init fwI w))).output_file.text).countP
            isFooterLine = 1
        ∧ (destructor fwD (run calls (Init fwI w))).output_file.releases = 1
        ∧ (destructor fwD (run calls (Init fwI w))).output_file.isOpen = false)
      ∧ ((destructor fwD (SetActive (run calls (Init fwI w)) false)).output_file.text =
          (run calls (Init fwI w)).output_file.text
        ∧ (textLines (destructor fwD (SetActive (run calls (Init fwI w)) false)
            ).output_file.text).countP isFooterLine = 0
        ∧ (destructor fwD (SetActive (run calls (Init fwI w)) false)).output_file.releases = 1
        ∧ (destructor fwD (SetActive (run calls (Init fwI w)) false)).output_file.isOpen = false)
      ∧ ((destructor fwD (SetActive (Close fwC (run calls (Init fwI w))) a)).output_file.text =
          (Close fwC (run calls (Init fwI w))).output_file.text
        ∧ (textLines (destructor fwD (SetActive (Close fwC (run calls (Init fwI w))) a)
            ).output_file.text).countP isFooterLine = 1
        ∧ (destructor fwD (SetActive (Close fwC (run calls (Init fwI w))) a)
            ).output_file.releases = 1
        ∧ (destructor fwD (SetActive (Close fwC (run calls (Init fwI w))) a)
            ).output_file.isOpen = false) := by
  obtain ⟨-, -, -, -, hact, hD⟩ := session fwI fwD calls w hA hF
  obtain ⟨-, -, -, -, -, hC⟩ := session fwI fwC calls w hA hF
  have hcD := footer_count fwI fwD calls w hA hF hN
  have hcC := footer_count fwI fwC calls w hA hF hN
  have hc0 := no_footer_before_Close fwI calls w hA hF hN
  -- still active, no explicit Close
  have e₁ : (destructor fwD (run calls (Init fwI w))).output_file =
      (Close fwD (run calls (Init fwI w))).output_file := by
    unfold destructor
    simp only [hact, if_true]
    rw [hD]
    rfl
  -- switched off, no explicit Close
  have e₂ := teardown_switched_off fwI fwD calls w hA hF
  -- explicit Close first
  have hopen : (Close fwC (run calls (Init fwI w))).output_file.isOpen = false := by rw [hC]
  have e₃ : (destructor fwD (SetActive (Close fwC (run calls (Init fwI w))) a)).output_file.text
        = (Close fwC (run calls (Init fwI w))).output_file.text
      ∧ (destructor fwD (SetActive (Close fwC (run calls (Init fwI w))) a)).output_file.releases
        = (Close fwC (run calls (Init fwI w))).output_file.releases
      ∧ (destructor fwD (SetActive (Close fwC (run calls (Init fwI w))) a)).output_file.isOpen
        = false := by
    cases a with
    | false =>
        rw [destructor_switched_off]
        unfold OStream.destroy
        simp [hopen]
    | true =>
        obtain ⟨c₁, c₂, c₃, -⟩ :=
          Close_closed fwD (SetActive (Close fwC (run calls (Init fwI w))) true) hopen
        have : (destructor fwD (SetActive (Close fwC (run calls (Init fwI w))) true)).output_file
            = (Close fwD (SetActive (Close fwC (run calls (Init fwI w))) true)).output_file := by
          unfold destructor
          have hact2 : GetActive (SetActive (Close fwC (run calls (Init fwI w))) true) = true :=
            rfl
          simp only [hact2, if_true, OStream.destroy, c₃]
          rfl
        rw [this]
        exact ⟨c₁, c₂, c₃⟩
  refine ⟨⟨hact, SetActive_same _ hact⟩,
    ⟨by rw [e₁], by rw [e₁]; exact hcD, by rw [e₁, hD], by rw [e₁, hD]⟩,
    ⟨e₂.1, by rw [e₂.1]; exact hc0, e₂.2.1, e₂.2.2⟩,
    ⟨e₃.1, by rw [e₃.1]; exact hcC, by rw [e₃.2.1, hC], e₃.2.2⟩⟩

theorem teardown_by_active_flag_witness :
    GetActive (construct hadronBase) = true
      ∧ (construct hadronBase).output_file = OStream.fresh
      ∧ textLines (destructor frameworkA (run oneEvent (Init frameworkA
          (construct hadronBase)))).output_file.text =
        ["#\tJETSCAPE_FINAL_STATE\tv3\t|\tN\tpid\tstatus\tE\tPx\tPy\tPz",
          "#\tEvent\t1\tweight\t1\tEPangle\t0\tN_Hadron\t1",
          "0 211 0 1 0.1 0.2 0.3",
          "#\tsigmaGen\t5.2\tsigmaErr\t0.1"]
      ∧ (destructor frameworkA (run oneEvent (Init frameworkA
          (construct hadronBase)))).output_file.releases = 1
      ∧ textLines (destructor frameworkA (SetActive (Close frameworkA (run oneEvent
          (Init frameworkA (construct hadronBase)))) true)).output_file.text =
        ["#\tJETSCAPE_FINAL_STATE\tv3\t|\tN\tpid\tstatus\tE\tPx\tPy\tPz",
          "#\tEvent\t1\tweight\t1\tEPangle\t0\tN_Hadron\t1",
          "0 211 0 1 0.1 0.2 0.3",
          "#\tsigmaGen\t5.2\tsigmaErr\t0.1"]
      ∧ (destructor frameworkA (SetActive (Close frameworkA (run oneEvent (Init frameworkA
          (construct hadronBase)))) true)).output_file.releases = 1 := by
  have h := teardown_by_active_flag frameworkA frameworkA frameworkA oneEvent
    (construct hadronBase) true rfl rfl (by unfold Avoids; decide)
  have hl := (session_lines frameworkA frameworkA oneEvent (construct hadronBase) rfl rfl
    (by unfold Avoids; decide)).2
  refine ⟨rfl, rfl, ?_, h.2.1.2.2.1, ?_, h.2.2.2.2.2.1⟩
  · rw [h.2.1.1, hl]; decide
  · rw [h.2.2.2.1, hl]; decide

/-- C6, counterexample: `Init` opens the stream of an active writer, one event
is written, the pipeline switches the writer off, and the writer is torn down:
the output holds no footer line, although the file was opened and is released. -/
theorem teardown_of_deactivated_writer :
    (Init frameworkA (construct hadronBase)).output_file.isOpen = true
      ∧ textLines (destructor frameworkA (SetActive (run oneEvent (Init frameworkA
          (construct hadronBase))) false)).output_file.text =
        ["#\tJETSCAPE_FINAL_STATE\tv3\t|\tN\tpid\tstatus\tE\tPx\tPy\tPz",
          "#\tEvent\t1\tweight\t1\tEPangle\t0\tN_Hadron\t1",
          "0 211 0 1 0.1 0.2 0.3"]
      ∧ (textLines (destructor frameworkA (SetActive (run oneEvent (Init frameworkA
          (construct hadronBase))) false)).output_file.text).countP isFooterLine = 0
      ∧ (destructor frameworkA (SetActive (run oneEvent (Init frameworkA
          (construct hadronBase))) false)).output_file.releases = 1 := by
  have e := teardown_switched_off frameworkA frameworkA oneEvent (construct hadronBase) rfl rfl
  have hl := (session_lines frameworkA frameworkA oneEvent (construct hadronBase) rfl rfl
    (by unfold Avoids; decide)).1
  have ho := (Init_active frameworkA (construct hadronBase) rfl rfl).1
  refine ⟨by rw [ho], ?_, ?_, e.2.1⟩
  · rw [e.1, hl]; decide
  · rw [e.1, hl]; decide

/-- C7 (amended): in the event header written by `WriteEvent` the field after
`EPangle` is the angle itself when the angle is greater than `-999`, and `0`
otherwise; in particular it is `0` for the angle `-999`. -/
theorem EPangle_field (fw : Framework) (w : JetScapeWriterFinalStateStream)
    (h : w.output_file.Ready) :
    (WriteEvent fw w).output_file.text =
        w.output_file.text ++
          ("\t".intercalate (eventHeaderFields fw (GetName w) w.headerVersion w.particles.length)
            ++ "\n" ++
            catLines (particleLines w.particles))
      ∧ (eventHeaderFields fw (GetName w) w.headerVersion w.particles.length)[5]? =
          some "EPangle"
      ∧ (eventHeaderFields fw (GetName w) w.headerVersion w.particles.length)[6]? =
          some (if fw.header.EventPlaneAngle.gt (Double.ofInt (-999))
            then formatG 6 fw.header.EventPlaneAngle else "0")
      ∧ (if (Double.ofInt (-999)).gt (Double.ofInt (-999))
            then formatG 6 (Double.ofInt (-999)) else "0") = "0" := by
  refine ⟨by rw [WriteEvent_ready fw w h, eventHeaderLine_eq], ?_, ?_, by decide⟩
  · simp [eventHeaderFields]
  · simp [eventHeaderFields, angleField]

theorem EPangle_field_witness :
    (writerWith []).output_file.Ready
      ∧ (WriteEvent { frameworkA with header := { headerA with EventPlaneAngle := d0_1 } }
          (writerWith [])).output_file.text =
        "#\tEvent\t1\tweight\t1\tEPangle\t0.1\tN_Hadron\t0\n" := by
  refine ⟨⟨rfl, rfl⟩, ?_⟩
  rw [(EPangle_field _ (writerWith []) ⟨rfl, rfl⟩).1]
  decide

/-- C7, counterexample: the angle `-1000` is not `-999`, its text is `-1000`, yet
the EPangle field that `WriteEvent` writes for it is `0`. -/
theorem EPangle_below_sentinel_is_zero :
    Double.ofInt (-1000) ≠ Double.ofInt (-999)
      ∧ formatG 6 (Double.ofInt (-1000)) = "-1000"
      ∧ (WriteEvent frameworkLowAngle (writerWith [])).output_file.text =
          "#\tEvent\t1\tweight\t1\tEPangle\t0\tN_Hadron\t0\n"
      ∧ (WriteEvent frameworkLowAngle (writerWith [])).output_file.text ≠
          "#\tEvent\t1\tweight\t1\tEPangle\t" ++ formatG 6 (Double.ofInt (-1000))
            ++ "\tN_Hadron\t0\n" := by
  decide

theorem numeric_head {s : String} (hs : Numeric s) (c : Char) (hc : numericChar c = false) :
    s.data.head? ≠ some c := by
  intro h
  have hmem : c ∈ s.data := by
    cases hd : s.data with
    | nil => rw [hd] at h; simp at h
    | cons a as => rw [hd] at h; simp at h; simp [h]
  exact numeric_avoids hs c hc hmem

theorem baseFields_head (fw : Framework) (label : String) (count : Nat) :
    ∀ l ∈ baseFields fw label count, l.data.head? ≠ some 'v' ∧ l.data.head? ≠ some 'p' := by
  intro l hmem
  simp only [baseFields, List.mem_cons, List.mem_singleton] at hmem
  rcases hmem with h | h | h | h | h | h | h | h | h | h
  · rw [h]; decide
  · rw [h]; decide
  · rw [h]; exact ⟨numeric_head (numeric_int _) _ (by decide), numeric_head (numeric_int _) _ (by decide)⟩
  · rw [h]; decide
  · rw [h]; exact ⟨numeric_head (numeric_formatG _ _) _ (by decide), numeric_head (numeric_formatG _ _) _ (by decide)⟩
  · rw [h]; decide
  · rw [h]; exact ⟨numeric_head (numeric_angleField _) _ (by decide), numeric_head (numeric_angleField _) _ (by decide)⟩
  · rw [h]; simp
  · rw [h]; exact ⟨numeric_head (numeric_nat _) _ (by decide), numeric_head (numeric_nat _) _ (by decide)⟩
  · simp at h

theorem ptHatFields_head (fw : Framework) :
    ∀ l ∈ ptHatFields fw, l.data.head? ≠ some 'v' := by
  intro l hmem
  unfold ptHatFields at hmem
  split at hmem
  · simp only [List.mem_cons, List.mem_singleton] at hmem
    rcases hmem with h | h | h
    · rw [h]; decide
    · rw [h]; exact numeric_head (numeric_to_string _) _ (by decide)
    · simp at h
  · simp at hmem

theorem vertexFields_head (version : Nat) (hd : JetScapeEventHeader) :
    ∀ l ∈ vertexFields version hd, l.data.head? ≠ some 'p' := by
  intro l hmem
  unfold vertexFields at hmem
  split at hmem
  · simp only [List.mem_cons, List.mem_singleton] at hmem
    rcases hmem with h | h | h | h | h | h | h
    · rw [h]; decide
    · rw [h]; exact numeric_head (numeric_formatG _ _) _ (by decide)
    · rw [h]; decide
    · rw [h]; exact numeric_head (numeric_formatG _ _) _ (by decide)
    · rw [h]; decide
    · rw [h]; exact numeric_head (numeric_formatG _ _) _ (by decide)
    · simp at h
  · simp at hmem

/-- C8: with header version 2 the event header written by `WriteEvent` has no
field `vertex_x`, `vertex_y` or `vertex_z`; with header version 3 it has exactly
`vertex_x`, x, `vertex_y`, y, `vertex_z`, z, in this order, directly after the
count that follows `N_<Label>` and before the pt_hat field. -/
theorem vertex_fields_by_version (fw : Framework) (w : JetScapeWriterFinalStateStream)
    (h : w.output_file.Ready) :
    (WriteEvent fw w).output_file.text =
        w.output_file.text ++
          ("\t".intercalate (eventHeaderFields fw (GetName w) w.headerVersion w.particles.length)
            ++ "\n" ++ catLines (particleLines w.particles))
      ∧ (w.headerVersion = 2 →
          eventHeaderFields fw (GetName w) w.headerVersion w.particles.length =
              baseFields fw (GetName w) w.particles.length ++ ptHatFields fw
            ∧ ∀ l ∈ eventHeaderFields fw (GetName w) w.headerVersion w.particles.length,
                l ≠ "vertex_x" ∧ l ≠ "vertex_y" ∧ l ≠ "vertex_z")
      ∧ (w.headerVersion = 3 →
          eventHeaderFields fw (GetName w) w.headerVersion w.particles.length =
            baseFields fw (GetName w) w.particles.length
              ++ ["vertex_x", formatG 6 fw.header.VertexX, "vertex_y", formatG 6 fw.header.VertexY,
                "vertex_z", formatG 6 fw.header.VertexZ]
              ++ ptHatFields fw)
      ∧ (baseFields fw (GetName w) w.particles.length).getLast? =
          some (toString w.particles.length) := by
  refine ⟨?_, ?_, ?_, ?_⟩
  · rw [WriteEvent_ready fw w h]; simp [eventHeaderLine, eventHeaderText, String.append_assoc]
  · intro hv
    have he : eventHeaderFields fw (GetName w) w.headerVersion w.particles.length =
        baseFields fw (GetName w) w.particles.length ++ ptHatFields fw := by
      simp [eventHeaderFields, baseFields, vertexFields, hv]
    refine ⟨he, ?_⟩
    intro l hl
    rw [he] at hl
    have hv' : l.data.head? ≠ some 'v' := by
      rcases List.mem_append.mp hl with h' | h'
      · exact (baseFields_head _ _ _ l h').1
      · exact ptHatFields_head _ l h'
    refine ⟨?_, ?_, ?_⟩ <;> (rintro rfl; exact hv' (by decide))
  · intro hv
    simp [eventHeaderFields, baseFields, vertexFields, hv]
  · simp [baseFields]

theorem vertex_fields_by_version_witness :
    (writerWith []).output_file.Ready
      ∧ (WriteEvent frameworkPtHat (writerWith [])).output_file.text =
          "#\tEvent\t1\tweight\t1\tEPangle\t0\tN_Hadron\t0\tpt_hat\t10.000000\n"
      ∧ (WriteEvent frameworkPtHat { writerWith [] with headerVersion := 3 }).output_file.text =
          "#\tEvent\t1\tweight\t1\tEPangle\t0\tN_Hadron\t0\tvertex_x\t0\tvertex_y\t0"
            ++ "\tvertex_z\t0\tpt_hat\t10.000000\n" := by
  refine ⟨⟨rfl, rfl⟩, ?_, ?_⟩
  · rw [(vertex_fields_by_version frameworkPtHat (writerWith []) ⟨rfl, rfl⟩).1]
    decide
  · rw [(vertex_fields_by_version frameworkPtHat { writerWith [] with headerVersion := 3 }
      ⟨rfl, rfl⟩).1]
    decide

/-- C9: when `write_pthat` is 0 the event header written by `WriteEvent` has no
field `pt_hat`; when it is non-zero the header ends with `pt_hat` and the
current header's pt_hat value, for every header version; and the header of a
second `WriteEvent` is built from the flag of the second call alone. -/
theorem pt_hat_field_by_flag (fw₁ fw₂ : Framework) (w : JetScapeWriterFinalStateStream)
    (h : w.output_file.Ready) :
    (WriteEvent fw₁ w).output_file.text =
        w.output_file.text ++
          ("\t".intercalate (eventHeaderFields fw₁ (GetName w) w.headerVersion w.particles.length)
            ++ "\n" ++ catLines (particleLines w.particles))
      ∧ (fw₁.write_pthat = 0 →
          eventHeaderFields fw₁ (GetName w) w.headerVersion w.particles.length =
              baseFields fw₁ (GetName w) w.particles.length ++ vertexFields w.headerVersion fw₁.header
            ∧ ∀ l ∈ eventHeaderFields fw₁ (GetName w) w.headerVersion w.particles.length,
                l ≠ "pt_hat")
      ∧ (fw₁.write_pthat ≠ 0 →
          eventHeaderFields fw₁ (GetName w) w.headerVersion w.particles.length =
            baseFields fw₁ (GetName w) w.particles.length ++ vertexFields w.headerVersion fw₁.header
              ++ ["pt_hat", to_string fw₁.header.PtHat])
      ∧ (WriteEvent fw₂ (WriteEvent fw₁ w)).output_file.text =
          (WriteEvent fw₁ w).output_file.text ++
            ("\t".intercalate (eventHeaderFields fw₂ (GetName w) w.headerVersion 0) ++ "\n") := by
  have hE := WriteEvent_ready fw₁ w h
  refine ⟨?_, ?_, ?_, ?_⟩
  · rw [hE]; simp [eventHeaderLine, eventHeaderText, String.append_assoc]
  · intro hp
    have he : eventHeaderFields fw₁ (GetName w) w.headerVersion w.particles.length =
        baseFields fw₁ (GetName w) w.particles.length
          ++ vertexFields w.headerVersion fw₁.header := by
      simp [eventHeaderFields, baseFields, ptHatFields, hp]
    refine ⟨he, ?_⟩
    intro l hl
    rw [he] at hl
    have hp' : l.data.head? ≠ some 'p' := by
      rcases List.mem_append.mp hl with h' | h'
      · exact (baseFields_head _ _ _ l h').2
      · exact vertexFields_head _ _ l h'
    rintro rfl
    exact hp' (by decide)
  · intro hp
    simp [eventHeaderFields, baseFields, ptHatFields, hp]
  · have hR : (WriteEvent fw₁ w).output_file.Ready := by rw [hE]; exact h
    rw [WriteEvent_ready fw₂ _ hR]
    rw [hE]
    simp [eventHeaderLine, eventHeaderText, particleLines, particleTexts, catLines, GetName]

theorem pt_hat_field_by_flag_witness :
    (writerWith [pion]).output_file.Ready
      ∧ textLines (WriteEvent frameworkPtHat (WriteEvent frameworkA (writerWith [pion]))
          ).output_file.text =
        ["#\tEvent\t1\tweight\t1\tEPangle\t0\tN_Hadron\t1",
          "0 211 0 1 0.1 0.2 0.3",
          "#\tEvent\t1\tweight\t1\tEPangle\t0\tN_Hadron\t0\tpt_hat\t10.000000"] := by
  refine ⟨⟨rfl, rfl⟩, ?_⟩
  have h := pt_hat_field_by_flag frameworkA frameworkPtHat (writerWith [pion]) ⟨rfl, rfl⟩
  rw [h.2.2.2, h.1]
  decide

/-- What `Init` makes of the header version. -/
theorem Init_headerVersion (fw : Framework) (w : JetScapeWriterFinalStateStream)
    (hA : GetActive w = true) :
    (Init fw w).headerVersion =
      if GetXMLElementInt fw = 0 then w.headerVersion else (GetXMLElementInt fw % 2 ^ 32).toNat := by
  unfold Init
  rw [if_pos hA]
  by_cases hr : GetXMLElementInt fw = 0 <;> simp [hr]

/-- After the default constructor the header version is 2 when none is configured
(or 0 is), and the configured value, as an `unsigned int`, otherwise. -/
theorem Init_headerVersion_construct (fw : Framework) (base : JetScapeWriter)
    (hA : base.active = true) :
    (fw.final_state_writer_header_version = none → (Init fw (construct base)).headerVersion = 2)
      ∧ (fw.final_state_writer_header_version = some 0 →
          (Init fw (construct base)).headerVersion = 2)
      ∧ ∀ r : Int, r ≠ 0 → fw.final_state_writer_header_version = some r →
          (Init fw (construct base)).headerVersion = (r % 2 ^ 32).toNat := by
  have h := Init_headerVersion fw (construct base) hA
  refine ⟨?_, ?_, ?_⟩
  · intro hn; rw [h]; simp [GetXMLElementInt, hn, construct]
  · intro hn; rw [h]; simp [GetXMLElementInt, hn, construct]
  · intro r hr hn; rw [h]; simp [GetXMLElementInt, hn, hr]

/-- C10, at the failing input: with no header version configured, `Init` leaves
the header version 2 after the default constructor, but after the constructor
taking a file name it leaves whatever the uninitialised member held (here 7,
or 3, which switches the vertex fields on). -/
theorem Init_headerVersion_after_fileName_constructor :
    frameworkA.final_state_writer_header_version = none
      ∧ (Init frameworkA (construct hadronBase)).headerVersion = 2
      ∧ (Init frameworkA (constructWithFileName hadronBase 7 "out.dat")).headerVersion = 7
      ∧ (Init frameworkA (constructWithFileName hadronBase 3 "out.dat")).headerVersion = 3 := by
  decide

end JetScapeWriterFinalStateStream

/-! ### Further properties of the writer -/

namespace JetScapeWriterFinalStateStream

theorem digitChar_value (k : Nat) (hk : k < 10) : (Nat.digitChar k).toNat - 48 = k := by
  interval_cases k <;> rfl

theorem digitChar_isDigit (k : Nat) (hk : k < 10) : (Nat.digitChar k).isDigit = true := by
  interval_cases k <;> rfl

theorem toDigitsCore_append (fuel : Nat) :
    ∀ (n : Nat) (ds : List Char),
      Nat.toDigitsCore 10 fuel n ds = Nat.toDigitsCore 10 fuel n [] ++ ds := by
  induction fuel with
  | zero => intro n ds; simp [Nat.toDigitsCore]
  | succ fuel ih =>
      intro n ds
      simp only [Nat.toDigitsCore]
      split
      · simp
      · rw [ih (n / 10) (Nat.digitChar (n % 10) :: ds), ih (n / 10) [Nat.digitChar (n % 10)]]
        simp

theorem toDigitsCore_value (fuel : Nat) :
    ∀ n : Nat, n < fuel → digitsValue (Nat.toDigitsCore 10 fuel n []) = n := by
  induction fuel with
  | zero => intro n h; omega
  | succ fuel ih =>
      intro n h
      simp only [Nat.toDigitsCore]
      split
      · next h0 =>
          simp only [digitsValue, List.foldl_cons, List.foldl_nil, zero_mul, zero_add]
          rw [digitChar_value _ (Nat.mod_lt _ (by norm_num))]
          omega
      · next h0 =>
          rw [toDigitsCore_append]
          have hlt : n / 10 < fuel := by omega
          have := ih (n / 10) hlt
          unfold digitsValue at this ⊢
          rw [List.foldl_append, this]
          simp only [List.foldl_cons, List.foldl_nil]
          rw [digitChar_value _ (Nat.mod_lt _ (by norm_num))]
          omega

theorem toDigitsCore_isDigit (fuel : Nat) :
    ∀ (n : Nat) (ds : List Char), (∀ c ∈ ds, c.isDigit = true) →
      ∀ c ∈ Nat.toDigitsCore 10 fuel n ds, c.isDigit = true := by
  induction fuel with
  | zero => intro n ds hds; simpa [Nat.toDigitsCore] using hds
  | succ fuel ih =>
      intro n ds hds
      have hd : ∀ c ∈ Nat.digitChar (n % 10) :: ds, c.isDigit = true := by
        intro c hc
        rcases List.mem_cons.mp hc with h | h
        · rw [h]; exact digitChar_isDigit _ (Nat.mod_lt _ (by norm_num))
        · exact hds c h
      simp only [Nat.toDigitsCore]
      split
      · exact hd
      · exact ih _ _ hd

theorem toString_nat_value (n : Nat) : digitsValue (toString n).data = n :=
  toDigitsCore_value (n + 1) n (Nat.lt_succ_self n)

theorem toString_nat_injective {n m : Nat} (h : toString n = toString m) : n = m := by
  rw [← toString_nat_value n, ← toString_nat_value m, h]

theorem toString_nat_isDigit (n : Nat) : ∀ c ∈ (toString n).data, c.isDigit = true :=
  toDigitsCore_isDigit (n + 1) n [] (by simp)

theorem toString_int_injective {i j : Int} (h : toString i = toString j) : i = j := by
  have hneg : ∀ (n m : Nat), toString (Int.ofNat n) ≠ toString (Int.negSucc m) := by
    intro n m he
    have h₁ : toString (Int.negSucc m) = "-" ++ toString (m + 1) := rfl
    have h₂ : toString (Int.ofNat n) = toString n := rfl
    rw [h₁, h₂] at he
    have hmem : '-' ∈ (toString n).data := by rw [he]; simp
    have := toString_nat_isDigit n _ hmem
    revert this
    decide
  cases i with
  | ofNat n =>
      cases j with
      | ofNat m =>
          have : toString n = toString m := h
          rw [toString_nat_injective this]
      | negSucc m => exact absurd h (hneg n m)
  | negSucc n =>
      cases j with
      | ofNat m => exact absurd h.symm (hneg m n)
      | negSucc m =>
          have h₁ : toString (Int.negSucc n) = "-" ++ toString (n + 1) := rfl
          have h₂ : toString (Int.negSucc m) = "-" ++ toString (m + 1) := rfl
          rw [h₁, h₂] at h
          have := toString_nat_injective (string_append_cancel h)
          rw [show n = m by omega]

/-- Two texts that agree up to and including their first separator. -/
theorem split_at_separator (c : Char) :
    ∀ (a b x y : List Char), c ∉ a → c ∉ b → a ++ c :: x = b ++ c :: y → a = b ∧ x = y := by
  intro a
  induction a with
  | nil =>
      intro b x y _ hb h
      cases b with
      | nil => simpa using h
      | cons d b =>
          simp only [List.nil_append, List.cons_append, List.cons.injEq] at h
          exact absurd (by simp [h.1]) hb
  | cons e a ih =>
      intro b x y ha hb h
      cases b with
      | nil =>
          simp only [List.nil_append, List.cons_append, List.cons.injEq] at h
          exact absurd (by simp [h.1]) ha
      | cons d b =>
          simp only [List.cons_append, List.cons.injEq] at h
          obtain ⟨h₁, h₂⟩ := ih b x y (fun hm => ha (List.mem_cons_of_mem _ hm))
            (fun hm => hb (List.mem_cons_of_mem _ hm)) h.2
          exact ⟨by rw [h.1, h₁], h₂⟩

/-- Fields without the separator are determined by their joined text. -/
theorem intercalate_injective (sep : Char) (s : String) (hs : s.data = [sep]) :
    ∀ (as bs : List String) (a b : String), as.length = bs.length →
      Avoids sep a → Avoids sep b → (∀ l ∈ as, Avoids sep l) → (∀ l ∈ bs, Avoids sep l) →
      s.intercalate (a :: as) = s.intercalate (b :: bs) →
      a :: as = b :: bs := by
  intro as
  induction as with
  | nil =>
      intro bs a b hlen _ _ _ _ h
      cases bs with
      | nil =>
          rw [intercalate_cons, intercalate_cons] at h
          simp only [List.map_nil, catLines, String.append_empty] at h
          rw [h]
      | cons _ _ => simp at hlen
  | cons a₁ as ih =>
      intro bs a b hlen ha hb has hbs h
      cases bs with
      | nil => simp at hlen
      | cons b₁ bs =>
          rw [intercalate_cons, intercalate_cons] at h
          have h' := congrArg String.data h
          simp only [List.map_cons, catLines, String.data_append] at h'
          rw [hs] at h'
          simp only [List.singleton_append] at h'
          obtain ⟨e₁, e₂⟩ := split_at_separator sep _ _ _ _ ha hb h'
          have hrest : s.intercalate (a₁ :: as) = s.intercalate (b₁ :: bs) := by
            rw [intercalate_cons, intercalate_cons]
            exact String.ext (by simpa using e₂)
          have := ih bs a₁ b₁ (by simpa using hlen) (has _ (List.mem_cons_self _ _))
            (hbs _ (List.mem_cons_self _ _))
            (fun l hl => has l (List.mem_cons_of_mem _ hl))
            (fun l hl => hbs l (List.mem_cons_of_mem _ hl)) hrest
          rw [String.ext e₁, this]

/-- A particle line determines the counter and the key of its record. -/
theorem particleTextAt_injective (i j : Nat) (p q : Particle)
    (h : particleTextAt 6 i p = particleTextAt 6 j q) : i = j ∧ recordKey p = recordKey q := by
  have hav : ∀ (k : Nat) (r : Particle), ∀ l ∈ [toString k, toString r.pid, toString r.pstat,
      formatG 6 r.e, formatG 6 r.px, formatG 6 r.py, formatG 6 r.pz], Avoids ' ' l :=
    fun k r l hl => numeric_avoids (particleTextAt_fields 6 k r l hl) _ (by decide)
  have hlist := intercalate_injective ' ' " " rfl
    [toString p.pid, toString p.pstat, formatG 6 p.e, formatG 6 p.px, formatG 6 p.py,
      formatG 6 p.pz]
    [toString q.pid, toString q.pstat, formatG 6 q.e, formatG 6 q.px, formatG 6 q.py,
      formatG 6 q.pz] (toString i) (toString j) rfl
    (hav i p _ (List.mem_cons_self _ _)) (hav j q _ (List.mem_cons_self _ _))
    (fun l hm => hav i p l (List.mem_cons_of_mem _ hm))
    (fun l hm => hav j q l (List.mem_cons_of_mem _ hm)) h
  simp only [List.cons.injEq, and_true] at hlist
  obtain ⟨h₁, h₂, h₃, h₄, h₅, h₆, h₇⟩ := hlist
  refine ⟨toString_nat_injective h₁, ?_⟩
  simp only [recordKey, toString_int_injective h₂, toString_int_injective h₃, h₄, h₅, h₆, h₇]

/-- C11: `Write` is total and never alters the records already buffered or the
output: with an expired reference (shower or hadron) the writer is unchanged;
with a live hadron reference the buffer becomes the old buffer followed by that
hadron; with a live shower reference it becomes the old buffer followed by the
shower's final-state partons, the partons not marked as branching further, in
the shower's order, repetitions included. -/
theorem Write_appends_in_order (w : JetScapeWriterFinalStateStream) (hh : Particle)
    (pShower : PartonShower) :
    WriteShower none w = w
      ∧ WriteHadron none w = w
      ∧ WriteHadron (some hh) w = { w with particles := w.particles ++ [hh] }
      ∧ WriteShower (some pShower) w =
          { w with particles := w.particles ++ pShower.GetFinalPartons }
      ∧ pShower.GetFinalPartons = (pShower.partons.filter fun p => !p.2).map Prod.fst
      ∧ (pShower.GetFinalPartons.Sublist (pShower.partons.map Prod.fst))
      ∧ (WriteShower (some pShower) w).output_file = w.output_file
      ∧ (WriteHadron (some hh) w).output_file = w.output_file := by
  refine ⟨rfl, rfl, rfl, WriteShower_some pShower w, rfl, ?_, ?_, rfl⟩
  · unfold PartonShower.GetFinalPartons
    exact (List.filter_sublist _).map _
  · rw [WriteShower_some]

/-- C12: with header version 2 and `write_pthat` disabled, the event-header line
that `WriteEvent` writes on an open stream is the tab-joined sequence `#`,
`Event`, current event + 1, `weight`, the weight at 15 digits, `EPangle`, the
angle field, `N_<Label>`, the buffer size, then a newline, in this order. -/
theorem event_header_version2 (fw : Framework) (w : JetScapeWriterFinalStateStream)
    (h : w.output_file.Ready) (hv : w.headerVersion = 2) (hp : fw.write_pthat = 0) :
    (WriteEvent fw w).output_file.text =
      w.output_file.text ++
        ("\t".intercalate
            ["#", "Event", toString (fw.currentEvent + 1), "weight",
              formatG 15 fw.header.EventWeight, "EPangle",
              (if fw.header.EventPlaneAngle.gt (Double.ofInt (-999))
                then formatG 6 fw.header.EventPlaneAngle else "0"),
              "N_" ++ GetName w, toString w.particles.length]
          ++ "\n" ++ catLines (particleLines w.particles)) := by
  rw [WriteEvent_ready fw w h]
  simp [eventHeaderLine, eventHeaderText, eventHeaderFields, vertexFields, ptHatFields, hv, hp,
    angleField]

theorem event_header_version2_witness :
    (writerWith [pion]).output_file.Ready ∧ (writerWith [pion]).headerVersion = 2
      ∧ frameworkA.write_pthat = 0
      ∧ frameworkA.currentEvent = 0
      ∧ textLines (WriteEvent frameworkA (writerWith [pion])).output_file.text =
        ["#\tEvent\t1\tweight\t1\tEPangle\t0\tN_Hadron\t1", "0 211 0 1 0.1 0.2 0.3"] := by
  refine ⟨⟨rfl, rfl⟩, rfl, rfl, rfl, ?_⟩
  rw [event_header_version2 frameworkA (writerWith [pion]) ⟨rfl, rfl⟩ rfl rfl]
  decide

/-- C13: `Init` on an active writer whose stream is closed leaves exactly one
line in the output, the tab-joined `#`, `JETSCAPE_FINAL_STATE`, `v3`, `|`, `N`,
`pid`, `status`, `E`, `Px`, `Py`, `Pz` with its newline; the stream after `Init`
is the same for every configuration, so the tag is `v3` whatever header version
is configured. -/
theorem Init_writes_file_header (fw fw' : Framework) (w : JetScapeWriterFinalStateStream)
    (hA : GetActive w = true) (hO : w.output_file.isOpen = false) :
    (Init fw w).output_file.text =
        "\t".intercalate
          ["#", "JETSCAPE_FINAL_STATE", "v3", "|", "N", "pid", "status", "E", "Px", "Py", "Pz"]
          ++ "\n"
      ∧ textLines (Init fw w).output_file.text =
          ["#\tJETSCAPE_FINAL_STATE\tv3\t|\tN\tpid\tstatus\tE\tPx\tPy\tPz"]
      ∧ (Init fw w).output_file.Ready
      ∧ (Init fw' w).output_file = (Init fw w).output_file := by
  obtain ⟨h₁, -⟩ := Init_active fw w hA hO
  obtain ⟨h₂, -⟩ := Init_active fw' w hA hO
  refine ⟨by rw [h₁]; rfl, ?_, by rw [h₁]; exact ⟨rfl, rfl⟩, by rw [h₁, h₂]⟩
  rw [h₁]
  show textLines (fileHeaderText ++ "\n") = _
  decide

theorem Init_writes_file_header_witness :
    GetActive (construct hadronBase) = true
      ∧ (construct hadronBase).output_file.isOpen = false
      ∧ (Init frameworkV3 (construct hadronBase)).headerVersion = 3
      ∧ (Init frameworkA (construct hadronBase)).headerVersion = 2
      ∧ (Init frameworkV3 (construct hadronBase)).output_file.text =
          "#\tJETSCAPE_FINAL_STATE\tv3\t|\tN\tpid\tstatus\tE\tPx\tPy\tPz\n"
      ∧ (Init frameworkA (construct hadronBase)).output_file =
          (Init frameworkV3 (construct hadronBase)).output_file := by
  have h := Init_writes_file_header frameworkV3 frameworkA (construct hadronBase) rfl rfl
  refine ⟨rfl, rfl, by decide, by decide, ?_, h.2.2.2⟩
  rw [h.1]
  decide

/-- C14: `Init` on a writer that is not active changes nothing, whatever the
configuration holds: the stream (so no file is opened and no line written), the
header version, the record buffer and the log are those of before. -/
theorem Init_inactive (fw : Framework) (w : JetScapeWriterFinalStateStream)
    (hA : GetActive w = false) :
    Init fw w = w
      ∧ (Init fw w).output_file.isOpen = w.output_file.isOpen
      ∧ (Init fw w).output_file.text = w.output_file.text
      ∧ (Init fw w).headerVersion = w.headerVersion
      ∧ (Init fw w).particles = w.particles := by
  have h : Init fw w = w := by
    unfold Init
    rw [hA]
    rfl
  rw [h]
  exact ⟨rfl, rfl, rfl, rfl, rfl⟩

theorem Init_inactive_witness :
    GetActive (construct inactiveBase) = false
      ∧ Init frameworkV3 (construct inactiveBase) = construct inactiveBase
      ∧ (Init frameworkV3 (construct inactiveBase)).output_file.isOpen = false
      ∧ (Init frameworkV3 (construct inactiveBase)).headerVersion = 2 :=
  ⟨rfl, (Init_inactive frameworkV3 (construct inactiveBase) rfl).1, rfl, rfl⟩

/-- C17: `Exec` is a no-op for every writer state, active or not; and a sequence
of calls without `WriteEvent` (`Exec` and `Write` calls) leaves the output
stream, and with it the text of the file, as it was. -/
theorem Exec_is_noop (w : JetScapeWriterFinalStateStream) (calls : List Call) :
    Exec w = w
      ∧ (Exec w).output_file = w.output_file
      ∧ (Exec w).particles = w.particles
      ∧ (Exec w).headerVersion = w.headerVersion
      ∧ ((∀ c ∈ calls, ∀ fw, c ≠ Call.WriteEvent fw) →
          (run calls w).output_file = w.output_file) := by
  refine ⟨rfl, rfl, rfl, rfl, ?_⟩
  intro hc
  induction calls generalizing w with
  | nil => rfl
  | cons c calls ih =>
      have hrun : run (c :: calls) w = run calls (c.step w) := rfl
      rw [hrun, ih _ (fun c' hc' => hc c' (List.mem_cons_of_mem _ hc'))]
      cases c with
      | WriteShower ps => rw [step_write (Call.WriteShower ps) rfl]
      | WriteHadron hh => rw [step_write (Call.WriteHadron hh) rfl]
      | Exec => rfl
      | WriteEvent fw => exact absurd rfl (hc _ (List.mem_cons_self _ _) fw)

theorem Exec_is_noop_witness :
    (∀ c ∈ [Call.Exec, Call.WriteHadron (some pion), Call.Exec], ∀ fw, c ≠ Call.WriteEvent fw)
      ∧ (run [Call.Exec, Call.WriteHadron (some pion), Call.Exec] (writerWith [])).output_file =
          (writerWith []).output_file := by
  have hc : ∀ c ∈ [Call.Exec, Call.WriteHadron (some pion), Call.Exec],
      ∀ fw, c ≠ Call.WriteEvent fw := by
    intro c hmem fw
    simp only [List.mem_cons, List.mem_singleton] at hmem
    rcases hmem with h | h | h | h
    · rw [h]; exact fun h' => Call.noConfusion h'
    · rw [h]; exact fun h' => Call.noConfusion h'
    · rw [h]; exact fun h' => Call.noConfusion h'
    · simp at h
  exact ⟨hc, (Exec_is_noop (writerWith []) _).2.2.2.2 hc⟩

theorem to_string_eq_formatF (x : Double) : to_string x = formatF 6 x := by
  cases x <;> rfl

theorem particleLines_text (ps : List Particle) (i : Nat) (p : Particle) (hp : ps[i]? = some p) :
    (particleLines ps)[i]? =
      some (toString (i % 2 ^ 32) ++ " " ++ toString p.pid ++ " " ++ toString p.pstat
        ++ " " ++ formatG 6 p.e ++ " " ++ formatG 6 p.px ++ " " ++ formatG 6 p.py
        ++ " " ++ formatG 6 p.pz ++ "\n") := by
  rw [particleLines_get, hp]
  simp [particleLineAt, particleTextAt, String.intercalate, String.intercalate.go,
    String.append_assoc]

/-- C18: events do not leak into each other.  After a first `WriteEvent` the
buffer is empty; the `Write` calls that follow fill it with their records alone,
and the second `WriteEvent` appends a header with their number and exactly their
particle lines, numbered again from 0 by the 32-bit counter, whatever the buffer
of the first event held. -/
theorem events_do_not_leak (fw₁ fw₂ : Framework) (w : JetScapeWriterFinalStateStream)
    (calls : List Call) (hc : ∀ c ∈ calls, c.isWrite = true) (h : w.output_file.Ready) :
    (run calls (WriteEvent fw₁ w)).particles = calls.flatMap Call.records
      ∧ (WriteEvent fw₂ (run calls (WriteEvent fw₁ w))).output_file.text =
          (WriteEvent fw₁ w).output_file.text ++
            ("\t".intercalate
                (eventHeaderFields fw₂ (GetName w) w.headerVersion
                  (calls.flatMap Call.records).length)
              ++ "\n" ++ catLines (particleLines (calls.flatMap Call.records)))
      ∧ (particleLines (calls.flatMap Call.records)).length =
          (calls.flatMap Call.records).length
      ∧ ∀ (i : Nat) (p : Particle), (calls.flatMap Call.records)[i]? = some p →
          (particleLines (calls.flatMap Call.records))[i]? =
            some (toString (i % 2 ^ 32) ++ " " ++ toString p.pid ++ " " ++ toString p.pstat
              ++ " " ++ formatG 6 p.e ++ " " ++ formatG 6 p.px ++ " " ++ formatG 6 p.py
              ++ " " ++ formatG 6 p.pz ++ "\n") := by
  have he := WriteEvent_ready fw₁ w h
  have hr : (WriteEvent fw₁ w).output_file.Ready := by rw [he]; exact h
  have hrun := run_writes calls hc (WriteEvent fw₁ w)
  have hp : (WriteEvent fw₁ w).particles = [] := rfl
  refine ⟨by rw [hrun, hp]; rfl, ?_, particleLines_length _, particleLines_text _⟩
  rw [hrun]
  rw [WriteEvent_ready fw₂
    ⟨(WriteEvent fw₁ w).base, (WriteEvent fw₁ w).output_file,
      (WriteEvent fw₁ w).particles ++ calls.flatMap Call.records,
      (WriteEvent fw₁ w).headerVersion, (WriteEvent fw₁ w).log⟩ hr, eventHeaderLine_eq]
  simp only [hp, List.nil_append]
  rfl

theorem events_do_not_leak_witness :
    (∀ c ∈ twoWrites, c.isWrite = true) ∧ (writerWith [pion, pion]).output_file.Ready
      ∧ textLines (WriteEvent frameworkA (run twoWrites (WriteEvent frameworkA
          (writerWith [pion, pion])))).output_file.text =
        ["#\tEvent\t1\tweight\t1\tEPangle\t0\tN_Hadron\t2",
          "0 211 0 1 0.1 0.2 0.3",
          "1 211 0 1 0.1 0.2 0.3",
          "#\tEvent\t1\tweight\t1\tEPangle\t0\tN_Hadron\t3",
          "0 211 0 1 0.1 0.2 0.3",
          "1 2 0 2 0 0 2",
          "2 -2 0 2 0 0 2"] := by
  refine ⟨by decide, ⟨rfl, rfl⟩, ?_⟩
  rw [(events_do_not_leak frameworkA frameworkA (writerWith [pion, pion]) twoWrites (by decide)
    ⟨rfl, rfl⟩).2.1, WriteEvent_ready frameworkA _ ⟨rfl, rfl⟩]
  decide

/-- C20: the label after `N_` in an event header is the value of `GetName()`,
which `Init` leaves unchanged; the capitalised copy of the name goes into the
log message alone, and the log has no influence on what `WriteEvent` writes:
with any other log the stream after `WriteEvent` is the same. -/
theorem capitalised_name_only_in_log (fw fwE : Framework) (w : JetScapeWriterFinalStateStream)
    (log' : List String) (hA : GetActive w = true) :
    GetName (Init fw w) = GetName w
      ∧ (Init fw w).log = w.log ++
          ["JetScape Final State " ++ capitalize (GetName w) ++ " Stream Writer v"
            ++ toString (Init fw w).headerVersion ++ " initialized with output file = "
            ++ GetOutputFileName w]
      ∧ (eventHeaderFields fwE (GetName (Init fw w)) (Init fw w).headerVersion
            (Init fw w).particles.length)[7]? = some ("N_" ++ GetName w)
      ∧ (WriteEvent fwE { Init fw w with log := log' }).output_file =
          (WriteEvent fwE (Init fw w)).output_file
      ∧ (Init fw { w with log := log' }).output_file = (Init fw w).output_file := by
  have hn : GetName (Init fw w) = GetName w := by
    unfold Init GetName
    rw [if_pos hA]
    by_cases hr : GetXMLElementInt fw = 0 <;> simp [hr]
  refine ⟨hn, ?_, ?_, rfl, ?_⟩
  · unfold Init
    rw [if_pos hA]
    by_cases hr : GetXMLElementInt fw = 0 <;> simp [hr, GetName, GetOutputFileName]
  · rw [hn]; simp [eventHeaderFields]
  · unfold Init
    have hA' : GetActive { w with log := log' } = true := hA
    rw [if_pos hA, if_pos hA']
    by_cases hr : GetXMLElementInt fw = 0 <;> simp [hr]

theorem capitalised_name_only_in_log_witness :
    GetActive (construct lowerBase) = true
      ∧ (Init frameworkA (construct lowerBase)).log =
          ["JetScape Final State Hadrons Stream Writer v2 initialized with output file = "
            ++ "final_state_hadrons.dat"]
      ∧ textLines (WriteEvent frameworkA (Init frameworkA (construct lowerBase))).output_file.text =
          ["#\tJETSCAPE_FINAL_STATE\tv3\t|\tN\tpid\tstatus\tE\tPx\tPy\tPz",
            "#\tEvent\t1\tweight\t1\tEPangle\t0\tN_hadrons\t0"] := by
  have h := capitalised_name_only_in_log frameworkA frameworkA (construct lowerBase) [] rfl
  refine ⟨rfl, ?_, ?_⟩
  · rw [h.2.1]; decide
  · rw [← h.2.2.2.1]; decide

/-- C15 (amended): in the event header written by `WriteEvent` the weight is
formatted by the stream at precision 15 and the EPangle and vertex fields by the
stream at its default precision 6; the pt_hat field is not formatted by the
stream: it is the text of `std::to_string`, fixed notation with six digits after
the decimal point; the fields of the particle lines are formatted by the stream
at precision 6; this holds whatever precision the stream had before; afterwards
the precision of the stream is 6, and a `Close` that follows formats the footer
at precision 6. -/
theorem precision_does_not_leak (fw fwC : Framework) (w : JetScapeWriterFinalStateStream)
    (h : w.output_file.Ready) :
    (WriteEvent fw w).output_file.text =
        w.output_file.text ++
          ("\t".intercalate (eventHeaderFields fw (GetName w) w.headerVersion w.particles.length)
            ++ "\n" ++ catLines (particleLines w.particles))
      ∧ (eventHeaderFields fw (GetName w) w.headerVersion w.particles.length)[4]? =
          some (formatG 15 fw.header.EventWeight)
      ∧ (eventHeaderFields fw (GetName w) w.headerVersion w.particles.length)[6]? =
          some (if fw.header.EventPlaneAngle.gt (Double.ofInt (-999))
            then formatG 6 fw.header.EventPlaneAngle else formatG 6 (Double.ofInt 0))
      ∧ (w.headerVersion = 3 →
          (eventHeaderFields fw (GetName w) w.headerVersion w.particles.length).drop 9 =
            ["vertex_x", formatG 6 fw.header.VertexX, "vertex_y", formatG 6 fw.header.VertexY,
              "vertex_z", formatG 6 fw.header.VertexZ] ++ ptHatFields fw)
      ∧ (fw.write_pthat ≠ 0 → ptHatFields fw = ["pt_hat", formatF 6 fw.header.PtHat])
      ∧ (∀ (i : Nat) (p : Particle), w.particles[i]? = some p →
          (particleLines w.particles)[i]? =
            some (toString (i % 2 ^ 32) ++ " " ++ toString p.pid ++ " " ++ toString p.pstat
              ++ " " ++ formatG 6 p.e ++ " " ++ formatG 6 p.px ++ " " ++ formatG 6 p.py
              ++ " " ++ formatG 6 p.pz ++ "\n"))
      ∧ (WriteEvent fw w).output_file.precision = 6
      ∧ (Close fwC (WriteEvent fw w)).output_file.text =
          (WriteEvent fw w).output_file.text ++
            ("\t".intercalate
              ["#", "sigmaGen", formatG 6 fwC.header.SigmaGen, "sigmaErr",
                formatG 6 fwC.header.SigmaErr] ++ "\n") := by
  have he := WriteEvent_ready fw w h
  have hr : (WriteEvent fw w).output_file.Ready := by rw [he]; exact h
  have hp : (WriteEvent fw w).output_file.precision = 6 := by rw [he]
  refine ⟨by rw [he, eventHeaderLine_eq], ?_, ?_, ?_, ?_, particleLines_text _, hp, ?_⟩
  · simp [eventHeaderFields]
  · simp [eventHeaderFields, angleField, formatG_zero]
  · intro hv
    simp [eventHeaderFields, vertexFields, hv]
  · intro hpt
    simp [ptHatFields, hpt, to_string_eq_formatF]
  · rw [Close_ready fwC _ hr hp]
    rfl

theorem precision_does_not_leak_witness :
    ({ writerWith [pion] with output_file := { openStream with precision := 17 } }
        ).output_file.Ready
      ∧ textLines (Close frameworkA (WriteEvent
          { frameworkPtHat with header := { headerA with EventWeight := d0_1, PtHat := d0_1 } }
          { writerWith [pion] with output_file := { openStream with precision := 17 } })
          ).output_file.text =
        ["#\tEvent\t1\tweight\t0.1\tEPangle\t0\tN_Hadron\t1\tpt_hat\t0.100000",
          "0 211 0 1 0.1 0.2 0.3",
          "#\tsigmaGen\t5.2\tsigmaErr\t0.1"] := by
  refine ⟨⟨rfl, rfl⟩, ?_⟩
  have h := precision_does_not_leak
    { frameworkPtHat with header := { headerA with EventWeight := d0_1, PtHat := d0_1 } }
    frameworkA
    { writerWith [pion] with output_file := { openStream with precision := 17 } } ⟨rfl, rfl⟩
  rw [h.2.2.2.2.2.2.2, h.1]
  decide

/-- C15, counterexample: with pt_hat 10 the field that `WriteEvent` writes is
`10.000000`, the text of `std::to_string`, while the stream at its default
precision writes 10 as `10`. -/
theorem pt_hat_written_by_to_string :
    formatG 6 (Double.ofInt 10) = "10"
      ∧ textLines (WriteEvent frameworkPtHat (writerWith [])).output_file.text =
          ["#\tEvent\t1\tweight\t1\tEPangle\t0\tN_Hadron\t0\tpt_hat\t10.000000"]
      ∧ textLines (WriteEvent frameworkPtHat (writerWith [])).output_file.text ≠
          ["#\tEvent\t1\tweight\t1\tEPangle\t0\tN_Hadron\t0\tpt_hat\t"
            ++ formatG 6 frameworkPtHat.header.PtHat] := by
  decide

theorem particleTexts_injective (ps : List Particle) :
    ∀ (qs : List Particle) (k : Nat),
      (ps.enumFrom k).map (fun ip => particleTextAt 6 (ip.1 % 2 ^ 32) ip.2) =
        (qs.enumFrom k).map (fun ip => particleTextAt 6 (ip.1 % 2 ^ 32) ip.2) →
      ps.map recordKey = qs.map recordKey := by
  induction ps with
  | nil =>
      intro qs k h
      cases qs with
      | nil => rfl
      | cons q qs => simp at h
  | cons p ps ih =>
      intro qs k h
      cases qs with
      | nil => simp at h
      | cons q qs =>
          simp only [List.enumFrom_cons, List.map_cons, List.cons.injEq] at h
          rw [List.map_cons, List.map_cons, (particleTextAt_injective _ _ p q h.1).2,
            ih qs (k + 1) h.2]

/-- The lines of the text of one event. -/
theorem event_lines (fw : Framework) (label : String) (version : Nat) (ps : List Particle)
    (hl : Avoids '\n' label) :
    textLines (eventHeaderLine fw label version ps.length ++ catLines (particleLines ps)) =
      eventHeaderText fw label version ps.length :: particleTexts ps := by
  unfold eventHeaderLine particleLines
  rw [textLines_line _ _ (avoids_newline_eventHeaderText _ _ _ _ hl),
    ← String.append_empty (catLines _), textLines_lines _ _ "", textLines_empty,
    List.append_nil]
  intro l hmem
  simp only [particleTexts, List.mem_map] at hmem
  obtain ⟨ip, -, rfl⟩ := hmem
  exact avoids_newline_particleTextAt _ _ _

/-- The text of one event determines the keys of its records. -/
theorem event_text_determines_records (fw₁ fw₂ : Framework)
    (w₁ w₂ : JetScapeWriterFinalStateStream)
    (h₁ : w₁.output_file.Ready) (h₂ : w₂.output_file.Ready)
    (hn₁ : Avoids '\n' (GetName w₁)) (hn₂ : Avoids '\n' (GetName w₂))
    (ht : w₁.output_file.text = w₂.output_file.text)
    (h : (WriteEvent fw₁ w₁).output_file.text = (WriteEvent fw₂ w₂).output_file.text) :
    w₁.particles.length = w₂.particles.length
      ∧ w₁.particles.map recordKey = w₂.particles.map recordKey := by
  rw [WriteEvent_ready fw₁ w₁ h₁, WriteEvent_ready fw₂ w₂ h₂] at h
  simp only [ht] at h
  have hlines := congrArg textLines (string_append_cancel h)
  rw [event_lines _ _ _ _ hn₁, event_lines _ _ _ _ hn₂] at hlines
  have hkeys := particleTexts_injective _ _ 0 (List.cons.inj hlines).2
  exact ⟨by simpa using congrArg List.length hkeys, hkeys⟩

/-- The lines of a sequence of calls are those of its flushed events. -/
theorem eventLines_flushed (label : String) (version : Nat) (calls : List Call) :
    ∀ buf : List Particle,
      eventLines label version calls buf =
        (flushedEvents calls buf).flatMap fun e =>
          eventHeaderText e.1 label version e.2.length :: particleTexts e.2 := by
  induction calls with
  | nil => intro buf; simp [eventLines, flushedEvents]
  | cons c calls ih =>
      intro buf
      cases c with
      | WriteShower ps => simp [eventLines, flushedEvents, ih]
      | WriteHadron h => simp [eventLines, flushedEvents, ih]
      | Exec => simp [eventLines, flushedEvents, ih]
      | WriteEvent fw => simp [eventLines, flushedEvents, ih, List.flatMap_cons]

/-- Lines not starting with `#`, followed by nothing or by a line starting with
`#`, are determined by the whole. -/
theorem split_at_header :
    ∀ (A B R₁ R₂ : List String),
      (∀ l ∈ A, l.data.head? ≠ some '#') → (∀ l ∈ B, l.data.head? ≠ some '#') →
      (∀ l, R₁.head? = some l → l.data.head? = some '#') →
      (∀ l, R₂.head? = some l → l.data.head? = some '#') →
      A ++ R₁ = B ++ R₂ → A = B ∧ R₁ = R₂ := by
  intro A
  induction A with
  | nil =>
      intro B R₁ R₂ _ hB h₁ _ h
      cases B with
      | nil => exact ⟨rfl, by simpa using h⟩
      | cons b B =>
          simp only [List.nil_append, List.cons_append] at h
          exact absurd (h₁ b (by rw [h]; rfl)) (hB b (List.mem_cons_self _ _))
  | cons a A ih =>
      intro B R₁ R₂ hA hB h₁ h₂ h
      cases B with
      | nil =>
          simp only [List.nil_append, List.cons_append] at h
          exact absurd (h₂ a (by rw [← h]; rfl)) (hA a (List.mem_cons_self _ _))
      | cons b B =>
          simp only [List.cons_append, List.cons.injEq] at h
          obtain ⟨e₁, e₂⟩ := ih B R₁ R₂ (fun l hl => hA l (List.mem_cons_of_mem _ hl))
            (fun l hl => hB l (List.mem_cons_of_mem _ hl)) h₁ h₂ h.2
          exact ⟨by rw [h.1, e₁], e₂⟩

theorem particleTexts_head (ps : List Particle) :
    ∀ l ∈ particleTexts ps, l.data.head? ≠ some '#' := by
  intro l hl
  simp only [particleTexts, List.mem_map] at hl
  obtain ⟨ip, -, rfl⟩ := hl
  exact particleTextAt_head _ _ _

theorem flushed_head (label : String) (version : Nat) (E : List (Framework × List Particle)) :
    ∀ l, (E.flatMap fun e =>
        eventHeaderText e.1 label version e.2.length :: particleTexts e.2).head? = some l →
      l.data.head? = some '#' := by
  intro l hl
  cases E with
  | nil => simp at hl
  | cons e E =>
      simp only [List.flatMap_cons, List.cons_append, List.head?_cons, Option.some.injEq] at hl
      obtain ⟨r, hr⟩ := eventHeaderText_data e.1 label version e.2.length
      rw [← hl, hr]
      rfl

/-- The lines of a list of events determine, event by event, the keys of the
records. -/
theorem flushed_injective (l₁ l₂ : String) (v₁ v₂ : Nat) :
    ∀ (E₁ E₂ : List (Framework × List Particle)),
      (E₁.flatMap fun e => eventHeaderText e.1 l₁ v₁ e.2.length :: particleTexts e.2) =
        (E₂.flatMap fun e => eventHeaderText e.1 l₂ v₂ e.2.length :: particleTexts e.2) →
      E₁.map (fun e => e.2.map recordKey) = E₂.map (fun e => e.2.map recordKey) := by
  intro E₁
  induction E₁ with
  | nil =>
      intro E₂ h
      cases E₂ with
      | nil => rfl
      | cons e E₂ => simp [List.flatMap_cons] at h
  | cons e₁ E₁ ih =>
      intro E₂ h
      cases E₂ with
      | nil => simp [List.flatMap_cons] at h
      | cons e₂ E₂ =>
          simp only [List.flatMap_cons, List.cons_append, List.cons.injEq] at h
          obtain ⟨hp, hr⟩ := split_at_header _ _ _ _ (particleTexts_head e₁.2)
            (particleTexts_head e₂.2) (flushed_head l₁ v₁ E₁) (flushed_head l₂ v₂ E₂) h.2
          simp only [List.map_cons]
          rw [particleTexts_injective e₁.2 e₂.2 0 hp, ih E₂ hr]

/-- C16 (amended): the text written by a sequence of `Write`, `WriteEvent` and
`Exec` calls on an open writer determines, event by event, the particle count
and, record by record, pid, status and the texts of E, Px, Py, Pz at six
significant digits: two sequences that write the same text flush the same lists
of such tuples. -/
theorem text_determines_events (calls₁ calls₂ : List Call)
    (w₁ w₂ : JetScapeWriterFinalStateStream)
    (h₁ : w₁.output_file.Ready) (h₂ : w₂.output_file.Ready)
    (hn₁ : Avoids '\n' (GetName w₁)) (hn₂ : Avoids '\n' (GetName w₂))
    (ht : w₁.output_file.text = w₂.output_file.text)
    (h : (run calls₁ w₁).output_file.text = (run calls₂ w₂).output_file.text) :
    (flushedEvents calls₁ w₁.particles).map (fun e => e.2.map recordKey) =
        (flushedEvents calls₂ w₂.particles).map (fun e => e.2.map recordKey)
      ∧ (flushedEvents calls₁ w₁.particles).map (fun e => e.2.length) =
        (flushedEvents calls₂ w₂.particles).map (fun e => e.2.length) := by
  have hkeys : (flushedEvents calls₁ w₁.particles).map (fun e => e.2.map recordKey) =
      (flushedEvents calls₂ w₂.particles).map (fun e => e.2.map recordKey) := by
    rw [(run_ready calls₁ w₁ h₁).1, (run_ready calls₂ w₂ h₂).1, ht] at h
    have hl := congrArg textLines (string_append_cancel h)
    rw [← String.append_empty (catLines _), ← String.append_empty (catLines (List.map _
        (eventLines (GetName w₂) _ _ _))),
      textLines_lines _ (eventLines_avoid_newline _ _ _ _ hn₁),
      textLines_lines _ (eventLines_avoid_newline _ _ _ _ hn₂), textLines_empty,
      List.append_nil, List.append_nil, eventLines_flushed, eventLines_flushed] at hl
    exact flushed_injective _ _ _ _ _ _ hl
  refine ⟨hkeys, ?_⟩
  have := congrArg (List.map List.length) hkeys
  simpa [List.map_map, Function.comp_def] using this

theorem text_determines_events_witness :
    (writerWith []).output_file.Ready ∧ Avoids '\n' (GetName (writerWith []))
      ∧ (run (twoEvents pion pionHeavier) (writerWith [])).output_file.text =
          (run (twoEvents pionHeavier pion) (writerWith [])).output_file.text
      ∧ (flushedEvents (twoEvents pion pionHeavier) []).map (fun e => e.2.map recordKey) =
          [[(211, 0, "1", "0.1", "0.2", "0.3")], [(211, 0, "1", "0.1", "0.2", "0.3")]]
      ∧ (flushedEvents (twoEvents pion pionHeavier) []).map (fun e => e.2.map recordKey) =
          (flushedEvents (twoEvents pionHeavier pion) []).map (fun e => e.2.map recordKey) := by
  have hev : (run (twoEvents pion pionHeavier) (writerWith [])).output_file.text =
      (run (twoEvents pionHeavier pion) (writerWith [])).output_file.text := by
    rw [(run_ready _ (writerWith []) ⟨rfl, rfl⟩).1, (run_ready _ (writerWith []) ⟨rfl, rfl⟩).1]
    have hl : eventLines (GetName (writerWith [])) (writerWith []).headerVersion
        (twoEvents pion pionHeavier) (writerWith []).particles =
        eventLines (GetName (writerWith [])) (writerWith []).headerVersion
          (twoEvents pionHeavier pion) (writerWith []).particles := by decide
    rw [hl]
  have hk : (flushedEvents (twoEvents pion pionHeavier) []).map (fun e => e.2.map recordKey) =
      [[(211, 0, "1", "0.1", "0.2", "0.3")], [(211, 0, "1", "0.1", "0.2", "0.3")]] := by
    simp only [flushedEvents, twoEvents, Call.records, List.map, List.nil_append, recordKey,
      List.cons.injEq, Prod.mk.injEq, and_true]
    decide
  exact ⟨⟨rfl, rfl⟩, by unfold Avoids; decide, hev, hk,
    (text_determines_events (twoEvents pion pionHeavier) (twoEvents pionHeavier pion)
      (writerWith []) (writerWith []) ⟨rfl, rfl⟩ ⟨rfl, rfl⟩ (by unfold Avoids; decide)
      (by unfold Avoids; decide) rfl hev).1⟩

/-- C16, counterexample: two hadrons whose energies `1` and `1 + 2^-30` differ
are written to the same text, so the written tuples cannot be recovered from it. -/
theorem round_trip_loses_digits :
    (WriteEvent frameworkA (writerWith [pion])).output_file.text =
        (WriteEvent frameworkA (writerWith [pionHeavier])).output_file.text
      ∧ (pion.pid, pion.pstat, pion.e, pion.px, pion.py, pion.pz) ≠
          (pionHeavier.pid, pionHeavier.pstat, pionHeavier.e, pionHeavier.px, pionHeavier.py,
            pionHeavier.pz)
      ∧ pion.e.lt pionHeavier.e = true
      ∧ pion.e.isBinary64 = true ∧ pionHeavier.e.isBinary64 = true := by
  decide

end JetScapeWriterFinalStateStream

end Jetscape
